import Mathlib

/-!
Verification development for the mass-token-buy web repository.

The definitions below are a shallow embedding of the transaction manager
(`TransactionManager` in the transaction-management source file), its
configuration validation, the allocation planner
(`generateRandomAllocations`), the failure-triggered cleanup sweep
(`cleanupAndConsolidateFunds`), and the out-of-band consolidation entry
point (`transferBackFromWallet`).  JavaScript numbers that flow through
`parseFloat` are modelled by `JsNum` (NaN or an exact rational); on-chain
amounts are exact rationals (wei quantities carried as rationals); the
browser IndexedDB ledger is modelled by explicit lists with auto-increment
ids; external collaborators (chain client, swap router, key vault) are
modelled by oracle functions packaged in an environment record.
-/

namespace MTB

/-- A JavaScript number as produced by `parseFloat`: either NaN (parse
failure) or an exact rational value. -/
inductive JsNum where
  | nan : JsNum
  | val : ℚ → JsNum
deriving DecidableEq, Repr

/-- JavaScript comparison `a <= b`; false whenever either side is NaN. -/
def JsNum.jle : JsNum → JsNum → Bool
  | .val a, .val b => decide (a ≤ b)
  | _, _ => false

/-- JavaScript comparison `a < b`; false whenever either side is NaN. -/
def JsNum.jlt : JsNum → JsNum → Bool
  | .val a, .val b => decide (a < b)
  | _, _ => false

/-- JavaScript comparison `a > b`; false whenever either side is NaN. -/
def JsNum.jgt : JsNum → JsNum → Bool
  | .val a, .val b => decide (b < a)
  | _, _ => false

/-- Numeric readout of a parsed value.  Every run-level theorem carries the
hypothesis that the corresponding parse succeeded, so the default value for
NaN is never relied upon. -/
def JsNum.toQ : JsNum → ℚ
  | .nan => 0
  | .val q => q

/-- Longest leading run of decimal digits of a character list, together
with the rest of the list. -/
def takeDigits : List Char → List Char × List Char
  | [] => ([], [])
  | c :: cs =>
    if c.isDigit then
      let p := takeDigits cs
      (c :: p.1, p.2)
    else ([], c :: cs)

/-- Value of a list of decimal digit characters. -/
def digitsToNat (ds : List Char) : ℕ :=
  ds.foldl (fun a c => 10 * a + (c.toNat - 48)) 0

/-- Model of the JavaScript `parseFloat` builtin, restricted to plain
decimal numerals (optional leading whitespace, optional sign, digits with
an optional fractional part) - the only numeral forms the configuration
form produces.  Any string with no leading numeral parses to NaN. -/
def parseFloatJs (s : String) : JsNum :=
  let cs := s.toList.dropWhile (fun c => c = ' ' ∨ c = '\t' ∨ c = '\n')
  let p : ℚ × List Char :=
    match cs with
    | '-' :: r => (-1, r)
    | '+' :: r => (1, r)
    | _ => (1, cs)
  let ip := takeDigits p.2
  match ip.2 with
  | '.' :: r2 =>
    let fp := takeDigits r2
    if ip.1.isEmpty ∧ fp.1.isEmpty then .nan
    else .val (p.1 * ((digitsToNat ip.1 : ℚ) + (digitsToNat fp.1 : ℚ) / (10 ^ fp.1.length)))
  | _ => if ip.1.isEmpty then .nan else .val (p.1 * (digitsToNat ip.1 : ℚ))

/-- Model of the JavaScript `startsWith` string method, by character list. -/
def strStartsWithAux : List Char → List Char → Bool
  | _, [] => true
  | [], _ :: _ => false
  | c :: cs, d :: ds => c = d && strStartsWithAux cs ds

/-- Model of `s.startsWith(p)` from JavaScript. -/
def strStartsWith (s p : String) : Bool :=
  strStartsWithAux s.toList p.toList

/-- Model of the JavaScript falsiness test `!s` for a string: true exactly
for the empty string. -/
def strFalsy (s : String) : Bool :=
  s.toList.isEmpty

/-- The per-run configuration (`AppConfig`).  Address fields are abstracted
to the boolean outcome of the `ethers.isAddress` check the validator
applies to them; the numeric fields are kept as the strings the form
delivers, exactly as in the source. -/
structure AppConfig where
  tokenAddressValid : Bool
  targetAddressValid : Bool
  numWallets : ℕ
  gasAmount : String
  minPurchaseAmount : String
  maxPurchaseAmount : String
  minKeptTokens : String
  rpcUrl : String
deriving DecidableEq, Repr

/-- The error values the orchestrator can throw, one per `throw new Error`
site that the embedding reaches. -/
inductive ErrKind where
  | invalidTokenAddress
  | invalidTargetAddress
  | badNumWallets
  | badGasAmount
  | badMinPurchase
  | badMaxPurchase
  | minExceedsMax
  | negativeMinKept
  | badRpcUrl
  | insufficientAllocation
  | insufficientBalance
  | walletCreationFailed (i : ℕ)
deriving DecidableEq, Repr

/-- `validateConfig` of the transaction manager: the guard chain over the
raw configuration, in source order. -/
def validateConfig (c : AppConfig) : Except ErrKind Unit :=
  if !c.tokenAddressValid then .error .invalidTokenAddress
  else if !c.targetAddressValid then .error .invalidTargetAddress
  else if c.numWallets < 1 ∨ c.numWallets > 1000 then .error .badNumWallets
  else if (parseFloatJs c.gasAmount).jle (.val 0) then .error .badGasAmount
  else if (parseFloatJs c.minPurchaseAmount).jle (.val 0) then .error .badMinPurchase
  else if (parseFloatJs c.maxPurchaseAmount).jle (.val 0) then .error .badMaxPurchase
  else if (parseFloatJs c.minPurchaseAmount).jgt (parseFloatJs c.maxPurchaseAmount) then
    .error .minExceedsMax
  else if (parseFloatJs c.minKeptTokens).jlt (.val 0) then .error .negativeMinKept
  else if strFalsy c.rpcUrl ∨ !(strStartsWith c.rpcUrl "http") then .error .badRpcUrl
  else .ok ()

/-- A configuration whose addresses, wallet count and RPC URL are valid but
whose gas amount field holds the non-numeric string "abc". -/
def nanGasConfig : AppConfig :=
  { tokenAddressValid := true
    targetAddressValid := true
    numWallets := 10
    gasAmount := "abc"
    minPurchaseAmount := "0.01"
    maxPurchaseAmount := "0.02"
    minKeptTokens := "0"
    rpcUrl := "https://rpc.example" }

/-- The additions performed by the random-distribution loop of
`generateRandomAllocations` (source step 3): for each of the first
`numWallets - 1` slots, add a random share of the remaining budget, capped
by `maxAmount - minAmount`.  `i` is the wallet index feeding the random
source, the second argument is the number of loop iterations left, the
third is the remaining budget.  Returns the list of additions and the
final remaining budget. -/
def allocAdds (minAmount maxAmount : ℚ) (draws : ℕ → ℚ) : ℕ → ℕ → ℚ → List ℚ × ℚ
  | _, 0, remaining => ([], remaining)
  | i, k + 1, remaining =>
    let maxCanAdd := maxAmount - minAmount
    let maxSafeAdd := min maxCanAdd remaining
    let add := if 0 < maxSafeAdd then draws i * maxSafeAdd else 0
    let p := allocAdds minAmount maxAmount draws (i + 1) k (remaining - add)
    (add :: p.1, p.2)

/-- `generateRandomAllocations` of the transaction manager.  `draws` is the
sequence of `Math.random()` results consumed by the loop.  The boolean in
the result records whether the excess-funds warning branch fired
(`totalAvailable > maxPossible`).  For `numWallets = 0` the source returns
the empty array (the final out-of-range index assignment does not create
an element). -/
def generateRandomAllocations (numWallets : ℕ) (totalAvailable minAmount maxAmount : ℚ)
    (draws : ℕ → ℚ) : Except ErrKind (List ℚ × Bool) :=
  let minRequired := (numWallets : ℚ) * minAmount
  let maxPossible := (numWallets : ℚ) * maxAmount
  if totalAvailable < minRequired then .error .insufficientAllocation
  else
    let warned := decide (maxPossible < totalAvailable)
    match numWallets with
    | 0 => .ok ([], warned)
    | n + 1 =>
      let p := allocAdds minAmount maxAmount draws 0 n (totalAvailable - minRequired)
      let lastWalletMax := maxAmount - minAmount
      let toAdd := min lastWalletMax p.2
      .ok (p.1.map (fun a => minAmount + a) ++ [minAmount + toAdd], warned)

/-- Wallet lifecycle status (`WalletInfo.status`). -/
inductive WStatus where
  | created
  | funded
  | swapped
  | transferred
  | completed
deriving DecidableEq, Repr

/-- Transaction record type (`Transaction.type`). -/
inductive TxType where
  | fund_transfer
  | token_swap
  | token_transfer
  | eth_transfer
deriving DecidableEq, Repr

/-- Transaction record status (`Transaction.status`). -/
inductive TxStatus where
  | pending
  | success
  | failed
deriving DecidableEq, Repr

/-- A persisted wallet record.  Only the id and the status matter to the
claims; key material and addresses are abstracted away. -/
structure WalletRec where
  wid : ℕ
  status : WStatus
deriving DecidableEq, Repr

/-- A persisted transaction record.  The from/to addresses of the source
are abstracted to the id of the sub-wallet the action concerns. -/
structure TxRec where
  txid : ℕ
  ttype : TxType
  wid : ℕ
  amount : ℚ
  tstatus : TxStatus
deriving DecidableEq, Repr

/-- The IndexedDB ledger: wallet store and transaction store, both with
auto-increment ids. -/
structure Ledger where
  wallets : List WalletRec
  txs : List TxRec
  nextWid : ℕ
  nextTxId : ℕ
deriving DecidableEq, Repr

/-- `database.saveWallet`: append a record, return its fresh id. -/
def Ledger.saveWallet (l : Ledger) (st : WStatus) : Ledger × ℕ :=
  ({ l with wallets := l.wallets ++ [⟨l.nextWid, st⟩], nextWid := l.nextWid + 1 },
   l.nextWid)

/-- `database.updateWallet id (status := st)`: merge-update in place. -/
def Ledger.updateWallet (l : Ledger) (w : ℕ) (st : WStatus) : Ledger :=
  { l with
    wallets := l.wallets.map (fun r => if r.wid = w then { r with status := st } else r) }

/-- `database.saveTransaction` of a record in `pending` state, returning
its fresh id. -/
def Ledger.saveTx (l : Ledger) (t : TxType) (w : ℕ) (amt : ℚ) : Ledger × ℕ :=
  ({ l with txs := l.txs ++ [⟨l.nextTxId, t, w, amt, .pending⟩], nextTxId := l.nextTxId + 1 },
   l.nextTxId)

/-- `database.updateTransaction id (status := st)`: merge-update in place. -/
def Ledger.updateTx (l : Ledger) (id : ℕ) (st : TxStatus) : Ledger :=
  { l with
    txs := l.txs.map (fun r => if r.txid = id then { r with tstatus := st } else r) }

/-- Observable events of a run, in emission order.  `savedTx` is the
creation of a pending transaction record, `submit` the hand-off of the
corresponding on-chain action to the chain or swap client. -/
inductive Ev where
  | savedWallet (wid : ℕ)
  | updatedWallet (wid : ℕ) (st : WStatus)
  | savedTx (txid : ℕ) (t : TxType) (wid : ℕ)
  | submit (t : TxType) (wid : ℕ)
  | updatedTx (txid : ℕ) (st : TxStatus)
  | cleanupVisit (wid : ℕ)
  | excessWarn
deriving DecidableEq, Repr

/-- Oracles consumed by the cleanup sweep, indexed by the position of the
wallet in the snapshot returned by `getAllWallets`. -/
structure CleanupEnv where
  ethBal : ℕ → ℚ
  tokBal : ℕ → ℚ
  tokOk : ℕ → Bool
  ethOk : ℕ → Bool

/-- The environment of one `executeOperation` run: master balance, the
random source, per-wallet success oracles for the external calls of each
phase, chain fee data, consolidation-phase balances, the step at which the
cooperative stop flag becomes visible (`none` when `stopOperation` is
never called), and the cleanup-sweep oracles.  A wallet whose funding
transfer failed holds no ETH, so the swap-phase balance is derived from
the funding outcome rather than being a free oracle. -/
structure Env where
  masterBalance : ℚ
  draws : ℕ → ℚ
  createOk : ℕ → Bool
  fundOk : ℕ → Bool
  swapOk : ℕ → Bool
  gasPriceWei : ℚ
  tokenBal : ℕ → ℚ
  ethBalWei : ℕ → ℚ
  tokOk : ℕ → Bool
  ethOk : ℕ → Bool
  stopAt : Option ℕ
  cl : CleanupEnv

/-- Value of the `shouldStop` flag at the c-th read: the flag is set once
`stopOperation` runs and stays set, which the model renders as a read
index threshold. -/
def stopNow (e : Env) (c : ℕ) : Bool :=
  match e.stopAt with
  | none => false
  | some k => decide (k ≤ c)

/-- Mutable run context threaded through the phases: ledger, event trace,
and the number of `shouldStop` reads so far. -/
structure RS where
  led : Ledger
  evs : List Ev
  chk : ℕ
deriving Repr

/-- Wei per ETH. -/
def weiPerEth : ℚ := 1000000000000000000

/-- `feeData.gasPrice || ethers.parseUnits(0.1, gwei)`: the JavaScript
or-default, with 0 (and null) falling back to 0.1 gwei. -/
def effGasPrice (gp : ℚ) : ℚ :=
  if gp = 0 then 100000000 else gp

/-- One run-scoped wallet entry: loop index, ledger id, allocated purchase
amount. -/
abbrev WEntry := ℕ × ℕ × ℚ

/-- Wallet-creation loop (phase: create wallets).  The stop flag is read
at the top of each iteration; `createWallet` + `saveWallet` have no
per-wallet catch, so a failure escapes as a fatal error carrying the run
context at the point of failure. -/
def createLoop (env : Env) (allocs : List ℚ) :
    List ℕ → RS → List WEntry → RS × Except ErrKind (List WEntry)
  | [], rs, acc => (rs, .ok acc)
  | i :: rest, rs, acc =>
    if stopNow env rs.chk then ({ rs with chk := rs.chk + 1 }, .ok acc)
    else
      let rs1 : RS := { rs with chk := rs.chk + 1 }
      if env.createOk i then
        let p := rs1.led.saveWallet .created
        let rs2 : RS := { rs1 with led := p.1, evs := rs1.evs ++ [.savedWallet p.2] }
        createLoop env allocs rest rs2 (acc ++ [(i, p.2, allocs.getD i 0)])
      else (rs1, .error (.walletCreationFailed i))

/-- Funding-phase body for one wallet: pending `fund_transfer` record,
ETH transfer, then either the success updates (record to `success`,
wallet to `funded`) or the per-wallet catch, which regresses the wallet
to `created` and leaves the transaction record as it is. -/
def fundStep (env : Env) (gq : ℚ) (e : WEntry) (rs : RS) : RS :=
  let amountToSend := gq + e.2.2
  let p := rs.led.saveTx .fund_transfer e.2.1 amountToSend
  let rs1 : RS := { rs with
    led := p.1
    evs := rs.evs ++ [.savedTx p.2 .fund_transfer e.2.1, .submit .fund_transfer e.2.1] }
  if env.fundOk e.1 then
    { rs1 with
      led := (rs1.led.updateTx p.2 .success).updateWallet e.2.1 .funded
      evs := rs1.evs ++ [.updatedTx p.2 .success, .updatedWallet e.2.1 .funded] }
  else
    { rs1 with
      led := rs1.led.updateWallet e.2.1 .created
      evs := rs1.evs ++ [.updatedWallet e.2.1 .created] }

/-- Funding loop (phase: fund wallets), stop flag read at the top of each
iteration. -/
def fundLoop (env : Env) (gq : ℚ) : List WEntry → RS → RS
  | [], rs => rs
  | e :: rest, rs =>
    if stopNow env rs.chk then { rs with chk := rs.chk + 1 }
    else fundLoop env gq rest (fundStep env gq e { rs with chk := rs.chk + 1 })

/-- The swap-phase balance re-check: the actual swappable amount is the
lesser of the allocation and the current balance minus the swap gas
reserve (500k gas, current gas price, 150 percent buffer).  A wallet
whose funding transfer failed holds no ETH. -/
def swapAmount (env : Env) (gq : ℚ) (e : WEntry) : ℚ :=
  let actualBalanceWei : ℚ := if env.fundOk e.1 then (gq + e.2.2) * weiPerEth else 0
  let gasPrice := effGasPrice env.gasPriceWei
  let gasReserveWei := 500000 * gasPrice * 150 / 100
  let availableForSwap := (actualBalanceWei - gasReserveWei) / weiPerEth
  min e.2.2 (max 0 availableForSwap)

/-- Swap-phase body for one wallet: balance re-check, then the swap with
a pending record; a non-positive safe amount is skipped with a log.  A
failed swap leaves the pending record as it is (the catch only logs). -/
def swapStep (env : Env) (gq : ℚ) (e : WEntry) (rs : RS) : RS :=
  let actualSwapAmount := swapAmount env gq e
  if actualSwapAmount ≤ 0 then rs
  else
    let p := rs.led.saveTx .token_swap e.2.1 actualSwapAmount
    let rs1 : RS := { rs with
      led := p.1
      evs := rs.evs ++ [.savedTx p.2 .token_swap e.2.1, .submit .token_swap e.2.1] }
    if env.swapOk e.1 then
      { rs1 with
        led := (rs1.led.updateTx p.2 .success).updateWallet e.2.1 .swapped
        evs := rs1.evs ++ [.updatedTx p.2 .success, .updatedWallet e.2.1 .swapped] }
    else rs1

/-- Swap loop (phase: swap ETH for tokens). -/
def swapLoop (env : Env) (gq : ℚ) : List WEntry → RS → RS
  | [], rs => rs
  | e :: rest, rs =>
    if stopNow env rs.chk then { rs with chk := rs.chk + 1 }
    else swapLoop env gq rest (swapStep env gq e { rs with chk := rs.chk + 1 })

/-- Consolidation body for one wallet (phase: transfer to target).  The
token transfer has an inner catch that records `failed`; the ETH transfer
does not, so its failure reaches the per-wallet catch, which still marks
the wallet `completed` and leaves the eth record pending.  Either way the
wallet ends `completed`. -/
def transferStep (env : Env) (mkq : ℚ) (e : WEntry) (rs : RS) : RS :=
  let tokensToTransfer := env.tokenBal e.1 - mkq
  let rs1 : RS :=
    if 1 / 1000000 < tokensToTransfer then
      let p := rs.led.saveTx .token_transfer e.2.1 tokensToTransfer
      let rsA : RS := { rs with
        led := p.1
        evs := rs.evs ++ [.savedTx p.2 .token_transfer e.2.1, .submit .token_transfer e.2.1] }
      if env.tokOk e.1 then
        { rsA with
          led := rsA.led.updateTx p.2 .success
          evs := rsA.evs ++ [.updatedTx p.2 .success] }
      else
        { rsA with
          led := rsA.led.updateTx p.2 .failed
          evs := rsA.evs ++ [.updatedTx p.2 .failed] }
    else rs
  let ethBalanceWei := env.ethBalWei e.1
  let gasPrice := effGasPrice env.gasPriceWei
  let maxGasCostWei := 21000 * gasPrice * 2
  let transferWei := ethBalanceWei - maxGasCostWei
  if 10000000000000 < ethBalanceWei then
    if 0 < transferWei then
      let p := rs1.led.saveTx .eth_transfer e.2.1 (transferWei / weiPerEth)
      let rsB : RS := { rs1 with
        led := p.1
        evs := rs1.evs ++ [.savedTx p.2 .eth_transfer e.2.1, .submit .eth_transfer e.2.1] }
      if env.ethOk e.1 then
        { rsB with
          led := (rsB.led.updateTx p.2 .success).updateWallet e.2.1 .completed
          evs := rsB.evs ++ [.updatedTx p.2 .success, .updatedWallet e.2.1 .completed] }
      else
        { rsB with
          led := rsB.led.updateWallet e.2.1 .completed
          evs := rsB.evs ++ [.updatedWallet e.2.1 .completed] }
    else
      { rs1 with
        led := rs1.led.updateWallet e.2.1 .completed
        evs := rs1.evs ++ [.updatedWallet e.2.1 .completed] }
  else
    { rs1 with
      led := rs1.led.updateWallet e.2.1 .completed
      evs := rs1.evs ++ [.updatedWallet e.2.1 .completed] }

/-- Consolidation loop (phase: transfer tokens and ETH to target). -/
def transferLoop (env : Env) (mkq : ℚ) : List WEntry → RS → RS
  | [], rs => rs
  | e :: rest, rs =>
    if stopNow env rs.chk then { rs with chk := rs.chk + 1 }
    else transferLoop env mkq rest (transferStep env mkq e { rs with chk := rs.chk + 1 })

/-- `cleanupAndConsolidateFunds` body for one wallet of the snapshot
(`idx` is its position in the snapshot).  Wallets already `completed` are
skipped.  Both transfer failures are caught with a log only, so a failed
transfer leaves its record pending; the wallet is marked `completed`
regardless. -/
def cleanupStep (ce : CleanupEnv) (mkq : ℚ) (idx : ℕ) (w : WalletRec) (rs : RS) : RS :=
  if w.status = .completed then rs
  else
    let rs0 : RS := { rs with evs := rs.evs ++ [.cleanupVisit w.wid] }
    let tokenBalanceNum := ce.tokBal idx
    let rs1 : RS :=
      if 0 < tokenBalanceNum then
        let tokensToTransfer := tokenBalanceNum - mkq
        if 0 < tokensToTransfer then
          let p := rs0.led.saveTx .token_transfer w.wid tokensToTransfer
          let rsA : RS := { rs0 with
            led := p.1
            evs := rs0.evs ++ [.savedTx p.2 .token_transfer w.wid, .submit .token_transfer w.wid] }
          if ce.tokOk idx then
            { rsA with
              led := rsA.led.updateTx p.2 .success
              evs := rsA.evs ++ [.updatedTx p.2 .success] }
          else rsA
        else rs0
      else rs0
    let ethToTransfer := ce.ethBal idx - 1 / 10000
    let rs2 : RS :=
      if 1 / 10000 < ethToTransfer then
        let p := rs1.led.saveTx .eth_transfer w.wid ethToTransfer
        let rsB : RS := { rs1 with
          led := p.1
          evs := rs1.evs ++ [.savedTx p.2 .eth_transfer w.wid, .submit .eth_transfer w.wid] }
        if ce.ethOk idx then
          { rsB with
            led := rsB.led.updateTx p.2 .success
            evs := rsB.evs ++ [.updatedTx p.2 .success] }
        else rsB
      else rs1
    { rs2 with
      led := rs2.led.updateWallet w.wid .completed
      evs := rs2.evs ++ [.updatedWallet w.wid .completed] }

/-- Cleanup loop over the wallet snapshot taken at entry. -/
def cleanupLoop (ce : CleanupEnv) (mkq : ℚ) : List (ℕ × WalletRec) → RS → RS
  | [], rs => rs
  | p :: rest, rs => cleanupLoop ce mkq rest (cleanupStep ce mkq p.1 p.2 rs)

/-- `cleanupAndConsolidateFunds`: snapshot all wallets with
`getAllWallets`, then sweep each non-completed one once. -/
def cleanupAndConsolidateFunds (cfg : AppConfig) (ce : CleanupEnv) (led : Ledger) :
    Ledger × List Ev :=
  let mkq := (parseFloatJs cfg.minKeptTokens).toQ
  let rs := cleanupLoop ce mkq led.wallets.enum ⟨led, [], 0⟩
  (rs.led, rs.evs)

/-- Result of the phase pipeline inside the main try block:  the run
context at exit plus whether the pipeline completed, returned early on the
stop flag, or threw. -/
inductive PhaseRes where
  | completed
  | stopped
  | fatal (e : ErrKind)
deriving DecidableEq, Repr

/-- Output of the phase pipeline. -/
structure PhaseOut where
  led : Ledger
  evs : List Ev
  chk : ℕ
  res : PhaseRes
deriving Repr

/-- The body of the main try block of `executeOperation`: validate,
load master balance, plan allocations, then the create / fund / swap /
transfer phases with a stop-flag read after each of the first three
loops. -/
def runPhases (cfg : AppConfig) (env : Env) (led : Ledger) : PhaseOut :=
  match validateConfig cfg with
  | .error e => ⟨led, [], 0, .fatal e⟩
  | .ok _ =>
    let gq := (parseFloatJs cfg.gasAmount).toQ
    let minq := (parseFloatJs cfg.minPurchaseAmount).toQ
    let maxq := (parseFloatJs cfg.maxPurchaseAmount).toQ
    let mkq := (parseFloatJs cfg.minKeptTokens).toQ
    let availableBalance := env.masterBalance
    let totalGasNeeded := gq * cfg.numWallets
    let availableForPurchases := availableBalance - totalGasNeeded
    match generateRandomAllocations cfg.numWallets availableForPurchases minq maxq env.draws with
    | .error e => ⟨led, [], 0, .fatal e⟩
    | .ok (allocs, warned) =>
      let evs0 : List Ev := if warned then [.excessWarn] else []
      let totalETHNeeded := totalGasNeeded + allocs.sum
      if availableBalance < totalETHNeeded then ⟨led, evs0, 0, .fatal .insufficientBalance⟩
      else
        match createLoop env allocs (List.range cfg.numWallets) ⟨led, evs0, 0⟩ [] with
        | (rs1, .error e) => ⟨rs1.led, rs1.evs, rs1.chk, .fatal e⟩
        | (rs1, .ok ws) =>
          if stopNow env rs1.chk then ⟨rs1.led, rs1.evs, rs1.chk + 1, .stopped⟩
          else
            let rs2 := fundLoop env gq ws { rs1 with chk := rs1.chk + 1 }
            if stopNow env rs2.chk then ⟨rs2.led, rs2.evs, rs2.chk + 1, .stopped⟩
            else
              let rs3 := swapLoop env gq ws { rs2 with chk := rs2.chk + 1 }
              if stopNow env rs3.chk then ⟨rs3.led, rs3.evs, rs3.chk + 1, .stopped⟩
              else
                let rs4 := transferLoop env mkq ws { rs3 with chk := rs3.chk + 1 }
                ⟨rs4.led, rs4.evs, rs4.chk, .completed⟩

/-- Orchestrator state visible across calls: the `isRunning` flag and the
ledger. -/
structure MState where
  isRunning : Bool
  led : Ledger
deriving DecidableEq, Repr

/-- What a call of `executeOperation` does from the caller's view. -/
inductive Outcome where
  | ok
  | errAlreadyRunning
  | err (e : ErrKind)
deriving DecidableEq, Repr

/-- Full result of a call of `executeOperation`. -/
structure RunOut where
  outcome : Outcome
  st : MState
  cleanupRan : Bool
  evs : List Ev
deriving Repr

/-- `executeOperation`: reject when already running (before any mutation);
otherwise run the phase pipeline; on a thrown error run the cleanup sweep
and re-raise; the finally block clears `isRunning` on every path. -/
def executeOperation (cfg : AppConfig) (env : Env) (s : MState) : RunOut :=
  if s.isRunning then ⟨.errAlreadyRunning, s, false, []⟩
  else
    let po := runPhases cfg env s.led
    match po.res with
    | .fatal e =>
      let p := cleanupAndConsolidateFunds cfg env.cl po.led
      ⟨.err e, ⟨false, p.1⟩, true, po.evs ++ p.2⟩
    | .completed => ⟨.ok, ⟨false, po.led⟩, false, po.evs⟩
    | .stopped => ⟨.ok, ⟨false, po.led⟩, false, po.evs⟩

/-- `isOperationRunning`. -/
def isOperationRunning (s : MState) : Bool :=
  s.isRunning

/-- Environment of one `transferBackFromWallet` call: whether decrypting
the wallet key succeeds, the balances read from the chain, fee data, and
the outcomes of the two transfers. -/
structure TBEnv where
  loadOk : Bool
  tokBal : ℚ
  ethBalWei : ℚ
  gasPriceWei : ℚ
  tokOk : Bool
  ethOk : Bool

/-- Result of a `transferBackFromWallet` call; `threw` records whether the
call re-raised an error to the caller. -/
structure TBOut where
  led : Ledger
  evs : List Ev
  threw : Bool
deriving Repr

/-- `transferBackFromWallet`: out-of-band consolidation of a single wallet.
Both transfers mark their record `failed` on error and continue; the
wallet is marked `completed` regardless of transfer outcomes.  A failure
before the transfer stage (wallet missing, decryption failure, no stored
configuration) hits the outer catch, which still attempts to mark the
wallet `completed` and then re-raises. -/
def transferBackFromWallet (walletId : ℕ) (cfgStored : Option AppConfig)
    (customGasLimit : Option ℕ) (env : TBEnv) (led : Ledger) : TBOut :=
  match led.wallets.find? (fun w => w.wid = walletId) with
  | none => ⟨led.updateWallet walletId .completed, [], true⟩
  | some _ =>
    if !env.loadOk then
      ⟨led.updateWallet walletId .completed, [.updatedWallet walletId .completed], true⟩
    else
      match cfgStored with
      | none =>
        ⟨led.updateWallet walletId .completed, [.updatedWallet walletId .completed], true⟩
      | some cfg =>
        let mkq := (parseFloatJs cfg.minKeptTokens).toQ
        let tokensToTransfer := env.tokBal - mkq
        let s1 : Ledger × List Ev :=
          if 1 / 1000000 < tokensToTransfer then
            let p := led.saveTx .token_transfer walletId tokensToTransfer
            let evs := [Ev.savedTx p.2 .token_transfer walletId, Ev.submit .token_transfer walletId]
            if env.tokOk then
              (p.1.updateTx p.2 .success, evs ++ [.updatedTx p.2 .success])
            else
              (p.1.updateTx p.2 .failed, evs ++ [.updatedTx p.2 .failed])
          else (led, [])
        let gasLimit : ℚ :=
          match customGasLimit with
          | some g => if g ≠ 0 then (g : ℚ) else 21000
          | none => 21000
        let s2 : Ledger × List Ev :=
          if 10000000000000 < env.ethBalWei then
            let gasPrice := effGasPrice env.gasPriceWei
            let maxGasCostWei := gasLimit * gasPrice * 2
            let transferWei := env.ethBalWei - maxGasCostWei
            if 0 < transferWei then
              let p := s1.1.saveTx .eth_transfer walletId (transferWei / weiPerEth)
              let evs := [Ev.savedTx p.2 .eth_transfer walletId, Ev.submit .eth_transfer walletId]
              if env.ethOk then
                (p.1.updateTx p.2 .success, s1.2 ++ evs ++ [.updatedTx p.2 .success])
              else
                (p.1.updateTx p.2 .failed, s1.2 ++ evs ++ [.updatedTx p.2 .failed])
            else s1
          else s1
        ⟨s2.1.updateWallet walletId .completed, s2.2 ++ [.updatedWallet walletId .completed], false⟩

/-- Projection of the cleanup visits out of an event trace. -/
def visitsOf (evs : List Ev) : List ℕ :=
  evs.filterMap (fun e =>
    match e with
    | .cleanupVisit w => some w
    | _ => none)

/-- Trace checker for the audit-trail ordering: scanning left to right
while collecting the (type, wallet) keys of saved pending records, every
submission must be covered by a previously saved record with the same
key. -/
def submitsCoveredAux : List Ev → List (TxType × ℕ) → Bool
  | [], _ => true
  | .savedTx _ t w :: rest, seen => submitsCoveredAux rest ((t, w) :: seen)
  | .submit t w :: rest, seen => decide ((t, w) ∈ seen) && submitsCoveredAux rest seen
  | _ :: rest, seen => submitsCoveredAux rest seen

/-- Every on-chain submission in the trace is preceded by the creation of
a pending record for the same action. -/
def submitsCovered (evs : List Ev) : Bool :=
  submitsCoveredAux evs []

/-- The pending-record keys collected by a scan of the trace, newest
first, extending previously collected keys. -/
def seenAfter : List Ev → List (TxType × ℕ) → List (TxType × ℕ)
  | [], seen => seen
  | .savedTx _ t w :: rest, seen => seenAfter rest ((t, w) :: seen)
  | _ :: rest, seen => seenAfter rest seen

/-- Projection of the persisted-wallet creations out of a trace. -/
def savedWalletsOf (evs : List Ev) : List ℕ :=
  evs.filterMap (fun e =>
    match e with
    | .savedWallet w => some w
    | _ => none)

/-- Projection of the wallet status updates to `funded` out of a trace. -/
def fundedOf (evs : List Ev) : List ℕ :=
  evs.filterMap (fun e =>
    match e with
    | .updatedWallet w .funded => some w
    | _ => none)

/-- Projection of the wallet status updates to `created` (the funding
failure regression) out of a trace. -/
def createdOf (evs : List Ev) : List ℕ :=
  evs.filterMap (fun e =>
    match e with
    | .updatedWallet w .created => some w
    | _ => none)

/-- Projection of every swap-related record or submission out of a
trace: the wallets for which a swap was attempted. -/
def swapTouchOf (evs : List Ev) : List ℕ :=
  evs.filterMap (fun e =>
    match e with
    | .savedTx _ .token_swap w => some w
    | .submit .token_swap w => some w
    | _ => none)

/-! ### Concrete sample data used by witnesses and counterexamples -/

/-- The empty ledger of a fresh installation. -/
def emptyLedger : Ledger := ⟨[], [], 0, 0⟩

/-- Idle orchestrator over the empty ledger. -/
def idleEmpty : MState := ⟨false, emptyLedger⟩

/-- A well-formed one-wallet configuration with integral amounts. -/
def cfgGood : AppConfig :=
  { tokenAddressValid := true
    targetAddressValid := true
    numWallets := 1
    gasAmount := "2"
    minPurchaseAmount := "3"
    maxPurchaseAmount := "5"
    minKeptTokens := "0"
    rpcUrl := "https://rpc.example" }

/-- cfgGood with an invalid token address. -/
def cfgBadToken : AppConfig :=
  { cfgGood with tokenAddressValid := false }

/-- Cleanup oracles of an environment with empty sub-wallets and
successful transfers. -/
def trivCleanupEnv : CleanupEnv :=
  ⟨fun _ => 0, fun _ => 0, fun _ => true, fun _ => true⟩

/-- An environment in which every external call succeeds except the
funding transfer, which always throws; the master wallet holds 10 ETH
and the stop flag is never raised. -/
def fundFailEnv : Env :=
  { masterBalance := 10
    draws := fun _ => 0
    createOk := fun _ => true
    fundOk := fun _ => false
    swapOk := fun _ => true
    gasPriceWei := 0
    tokenBal := fun _ => 0
    ethBalWei := fun _ => 0
    tokOk := fun _ => true
    ethOk := fun _ => true
    stopAt := none
    cl := trivCleanupEnv }

/-- fundFailEnv with every funding transfer succeeding. -/
def allOkEnv : Env :=
  { fundFailEnv with fundOk := fun _ => true }

/-- A ledger holding one non-completed wallet from an earlier run. -/
def oneCreatedLedger : Ledger := ⟨[⟨0, .created⟩], [], 1, 0⟩

/-- Idle orchestrator over that ledger. -/
def idleOneCreated : MState := ⟨false, oneCreatedLedger⟩

/-- allOkEnv with the stop flag raised before the first check
(stopOperation called right after the run started). -/
def stopEnv : Env :=
  { allOkEnv with stopAt := some 0 }

/-- allOkEnv in which wallet creation throws (for example the Ledger
store rejects the write), the modelled fatal error of phase 2. -/
def createFailEnv : Env :=
  { allOkEnv with createOk := fun _ => false }

/-- A well-formed three-wallet configuration. -/
def cfg3 : AppConfig :=
  { cfgGood with
    numWallets := 3
    gasAmount := "1"
    minPurchaseAmount := "1"
    maxPurchaseAmount := "2" }

/-- An environment in which the funding transfer throws exactly for the
second wallet (index 1) and every other call succeeds. -/
def fundFail1Env : Env :=
  { allOkEnv with fundOk := fun i => decide (¬ i = 1) }

/-- A ledger holding one completed, empty wallet - the state after a
finished consolidation. -/
def oneCompletedLedger : Ledger := ⟨[⟨5, .completed⟩], [], 6, 0⟩

/-- Transfer-back environment of a drained wallet: zero balances,
successful decryption and transfers. -/
def drainedTBEnv : TBEnv :=
  ⟨true, 0, 0, 0, true, true⟩

/-! ### Helper lemmas for the allocation planner -/

theorem allocAdds_length (minA maxA : ℚ) (draws : ℕ → ℚ) :
    ∀ (k i : ℕ) (rem : ℚ), ((allocAdds minA maxA draws i k rem).1).length = k := by
  intro k
  induction k with
  | zero => intro i rem; rfl
  | succ m ih =>
    intro i rem
    simp only [allocAdds, List.length_cons]
    rw [ih]

theorem allocAdds_snd (minA maxA : ℚ) (draws : ℕ → ℚ) :
    ∀ (k i : ℕ) (rem : ℚ),
      (allocAdds minA maxA draws i k rem).2 =
        rem - ((allocAdds minA maxA draws i k rem).1).sum := by
  intro k
  induction k with
  | zero => intro i rem; simp [allocAdds]
  | succ m ih =>
    intro i rem
    simp only [allocAdds, List.sum_cons]
    rw [ih]
    ring

theorem allocAdds_bounds (minA maxA : ℚ) (draws : ℕ → ℚ)
    (hm : minA ≤ maxA) (hd : ∀ j, 0 ≤ draws j ∧ draws j ≤ 1) :
    ∀ (k i : ℕ) (rem : ℚ), 0 ≤ rem →
      (∀ a ∈ (allocAdds minA maxA draws i k rem).1, 0 ≤ a ∧ a ≤ maxA - minA) ∧
      0 ≤ (allocAdds minA maxA draws i k rem).2 := by
  intro k
  induction k with
  | zero => intro i rem h; exact ⟨by simp [allocAdds], h⟩
  | succ m ih =>
    intro i rem hrem
    simp only [allocAdds]
    by_cases hpos : 0 < min (maxA - minA) rem
    · simp only [hpos, if_pos]
      have hd0 := hd i
      have hadd0 : 0 ≤ draws i * min (maxA - minA) rem :=
        mul_nonneg hd0.1 (le_of_lt hpos)
      have hadd1 : draws i * min (maxA - minA) rem ≤ min (maxA - minA) rem := by
        nlinarith [hd0.2, hpos]
      have hrem2 : 0 ≤ rem - draws i * min (maxA - minA) rem := by
        have : min (maxA - minA) rem ≤ rem := min_le_right _ _
        nlinarith
      have := ih (i + 1) (rem - draws i * min (maxA - minA) rem) hrem2
      refine ⟨?_, this.2⟩
      intro a ha
      rcases List.mem_cons.mp ha with h | h
      · subst h
        exact ⟨hadd0, le_trans hadd1 (min_le_left _ _)⟩
      · exact this.1 a h
    · simp only [hpos, if_neg, if_false]
      have := ih (i + 1) (rem - 0) (by simpa using hrem)
      refine ⟨?_, by simpa using this.2⟩
      intro a ha
      rcases List.mem_cons.mp ha with h | h
      · subst h; exact ⟨le_refl 0, by linarith⟩
      · simpa using this.1 a (by simpa using h)

theorem allocAdds_clamp (minA maxA : ℚ) (draws : ℕ → ℚ)
    (hlt : minA < maxA) (hd1 : ∀ j, draws j ≤ 1) :
    ∀ (k i : ℕ) (rem : ℚ), ((k : ℚ) + 1) * (maxA - minA) < rem →
      (allocAdds minA maxA draws i k rem).1 =
        (List.range k).map (fun j => draws (i + j) * (maxA - minA)) ∧
      (maxA - minA) < (allocAdds minA maxA draws i k rem).2 := by
  intro k
  induction k with
  | zero =>
    intro i rem h
    constructor
    · simp [allocAdds]
    · simp only [allocAdds]
      push_cast at h
      linarith
  | succ m ih =>
    intro i rem hrem
    have hm : (0:ℚ) < maxA - minA := by linarith
    have hler : maxA - minA ≤ rem := by
      have hc : (0:ℚ) ≤ (m:ℚ) := Nat.cast_nonneg m
      push_cast at hrem
      nlinarith [hrem]
    have hmin : min (maxA - minA) rem = maxA - minA := min_eq_left hler
    simp only [allocAdds, hmin]
    have hpos : (0:ℚ) < maxA - minA := hm
    simp only [hpos, if_pos]
    have hrem2 : ((m : ℚ) + 1) * (maxA - minA) < rem - draws i * (maxA - minA) := by
      have h1 : draws i * (maxA - minA) ≤ maxA - minA := by
        nlinarith [hd1 i]
      push_cast at hrem ⊢
      nlinarith
    have := ih (i + 1) (rem - draws i * (maxA - minA)) hrem2
    refine ⟨?_, this.2⟩
    rw [this.1, List.range_succ_eq_map]
    simp only [List.map_cons, List.map_map]
    simp only [List.cons.injEq]
    constructor
    · simp
    · simp only [List.map_inj_left]
      intro a ha
      simp only [Function.comp_apply]
      congr 2
      omega

theorem sum_map_const_add (c : ℚ) :
    ∀ l : List ℚ, (l.map (fun a => c + a)).sum = l.length * c + l.sum := by
  intro l
  induction l with
  | nil => simp
  | cons x xs ih =>
    simp only [List.map_cons, List.sum_cons, List.length_cons, ih]
    push_cast
    ring

/-! ### Claim C1 -/

/-- C1 (counterexample): for the valid input n = 2, total = 2, min = 0,
max = 1 (so n min is at most total and total is at most n max) and the
admissible draw sequence that always returns 0, the allocator returns
[0, 1], whose sum is 1, not the required total 2 - off by 1, far beyond
any fixed decimal tolerance.  The last-slot rule caps the leftover at
max - min, so the sum can fall short of the total. -/
theorem allocation_sum_cex :
    generateRandomAllocations 2 2 0 1 (fun _ => 0) = .ok ([0, 1], false) ∧
    ((2 : ℕ) : ℚ) * 0 ≤ 2 ∧ (2 : ℚ) ≤ ((2 : ℕ) : ℚ) * 1 ∧
    ([(0 : ℚ), 1].sum = 1) ∧ ¬ ([(0 : ℚ), 1].sum = 2) := by
  refine ⟨?_, by norm_num, by norm_num, by norm_num, by norm_num⟩
  norm_num [generateRandomAllocations, allocAdds]

/-- C1 (amended): for every valid input (1 ≤ n, n min ≤ total ≤ n max)
and every draw sequence with values in [0, 1], the allocator returns a
list of length n whose every element lies in [min, max] and whose sum is
AT MOST total; the sum equals total exactly whenever the distributable
surplus total - n min fits in the last slot (at most max - min) - in
general the last-slot cap can leave part of the total unallocated. -/
theorem allocation_sum_amended (n : ℕ) (total minA maxA : ℚ) (draws : ℕ → ℚ)
    (hn : 1 ≤ n) (hlow : (n : ℚ) * minA ≤ total) (hhigh : total ≤ (n : ℚ) * maxA)
    (hd : ∀ j, 0 ≤ draws j ∧ draws j ≤ 1) :
    ∃ out warned,
      generateRandomAllocations n total minA maxA draws = .ok (out, warned) ∧
      out.length = n ∧
      (∀ x ∈ out, minA ≤ x ∧ x ≤ maxA) ∧
      out.sum ≤ total ∧
      (total - (n : ℚ) * minA ≤ maxA - minA → out.sum = total) := by
  obtain ⟨m, rfl⟩ : ∃ m, n = m + 1 := ⟨n - 1, by omega⟩
  have hnpos : (0:ℚ) < (m : ℚ) + 1 := by positivity
  have hmle : minA ≤ maxA := by
    by_contra hcon
    push_neg at hcon
    have : ((m:ℚ)+1) * maxA < ((m:ℚ)+1) * minA := by nlinarith
    push_cast at hlow hhigh
    linarith
  have hnotlt : ¬ (total < ((m + 1 : ℕ) : ℚ) * minA) := by push_cast at hlow ⊢; linarith
  set rem0 : ℚ := total - ((m + 1 : ℕ) : ℚ) * minA with hrem0
  have hrem0nn : 0 ≤ rem0 := by rw [hrem0]; linarith [hnotlt]
  set p := allocAdds minA maxA draws 0 m rem0 with hp
  have hb := allocAdds_bounds minA maxA draws hmle hd m 0 rem0 hrem0nn
  have hlen := allocAdds_length minA maxA draws m 0 rem0
  have hsnd := allocAdds_snd minA maxA draws m 0 rem0
  rw [← hp] at hb hlen hsnd
  have hsumnn : 0 ≤ p.1.sum := by
    apply List.sum_nonneg
    intro a ha
    exact (hb.1 a ha).1
  refine ⟨p.1.map (fun a => minA + a) ++ [minA + min (maxA - minA) p.2],
    decide (((m + 1 : ℕ) : ℚ) * maxA < total), ?_, ?_, ?_, ?_, ?_⟩
  · show generateRandomAllocations (m+1) total minA maxA draws = _
    simp only [generateRandomAllocations]
    rw [if_neg hnotlt]
  · simp [hlen]
  · intro x hx
    rcases List.mem_append.mp hx with h | h
    · obtain ⟨a, ha, rfl⟩ := List.mem_map.mp h
      have := hb.1 a ha
      constructor <;> linarith [this.1, this.2]
    · have hx1 : x = minA + min (maxA - minA) p.2 := by simpa using h
      subst hx1
      have h1 : 0 ≤ min (maxA - minA) p.2 := le_min (by linarith) hb.2
      have h2 : min (maxA - minA) p.2 ≤ maxA - minA := min_le_left _ _
      constructor <;> linarith
  · rw [List.sum_append, sum_map_const_add, hlen]
    simp only [List.sum_cons, List.sum_nil]
    rw [hsnd, hrem0]
    have h2 : (maxA - minA) ⊓ (total - ((m:ℚ) + 1) * minA - p.1.sum) ≤
        total - ((m:ℚ) + 1) * minA - p.1.sum := min_le_right _ _
    push_cast
    linarith
  · intro hsmall
    rw [List.sum_append, sum_map_const_add, hlen]
    simp only [List.sum_cons, List.sum_nil]
    rw [hrem0] at hsmall
    have hle : p.2 ≤ maxA - minA := by
      rw [hsnd, hrem0]
      push_cast at hsmall ⊢
      linarith [hsumnn]
    rw [min_eq_right hle, hsnd, hrem0]
    push_cast
    ring

/-- C1 (witness): the amended theorem applied at n = 2, total = 1,
min = 0, max = 1 with the constant draw 1/2. -/
theorem allocation_sum_amended_witness :
    (1 ≤ 2 ∧ ((2 : ℕ) : ℚ) * 0 ≤ 1 ∧ (1 : ℚ) ≤ ((2 : ℕ) : ℚ) * 1 ∧
      (∀ j : ℕ, 0 ≤ (1 : ℚ)/2 ∧ (1 : ℚ)/2 ≤ 1)) ∧
    (∃ out warned,
      generateRandomAllocations 2 1 0 1 (fun _ => 1/2) = .ok (out, warned) ∧
      out.length = 2 ∧
      (∀ x ∈ out, (0:ℚ) ≤ x ∧ x ≤ 1) ∧
      out.sum ≤ 1 ∧
      ((1 : ℚ) - ((2 : ℕ) : ℚ) * 0 ≤ 1 - 0 → out.sum = 1)) :=
  ⟨⟨by norm_num, by norm_num, by norm_num, fun j => by norm_num⟩,
    allocation_sum_amended 2 1 0 1 (fun _ => 1/2) (by norm_num) (by norm_num)
      (by norm_num) (fun j => by norm_num)⟩

/-! ### Claim C2 -/

/-- C2 (counterexample): for n = 2, total = 5 > 2 = n max, min = 0,
max = 1 and the constant draw 1/2, the allocator returns [1/2, 1] with
the excess warning: the first element is 1/2, not max = 1, so it is false
that every wallet receives exactly the maximum. -/
theorem allocation_clamp_cex :
    generateRandomAllocations 2 5 0 1 (fun _ => 1/2) = .ok ([1/2, 1], true) ∧
    ((2 : ℕ) : ℚ) * 1 < 5 ∧ ¬ ((1 : ℚ)/2 = 1) := by
  refine ⟨?_, by norm_num, by norm_num⟩
  norm_num [generateRandomAllocations, allocAdds]

/-- C2 (amended): when total > n max (and min < max), the excess warning
fires and the allocator gives the LAST wallet exactly max, while each of
the first n - 1 wallets receives min + draw * (max - min) - a random
amount below max, not max itself; the excess is not distributed. -/
theorem allocation_clamp_amended (n : ℕ) (total minA maxA : ℚ) (draws : ℕ → ℚ)
    (hn : 1 ≤ n) (hclamp : (n : ℚ) * maxA < total) (hlt : minA < maxA)
    (hd1 : ∀ j, draws j ≤ 1) :
    generateRandomAllocations n total minA maxA draws =
      .ok ((List.range (n - 1)).map (fun j => minA + draws j * (maxA - minA)) ++ [maxA],
           true) := by
  obtain ⟨m, rfl⟩ : ∃ m, n = m + 1 := ⟨n - 1, by omega⟩
  have hnn : (0:ℚ) ≤ ((m + 1 : ℕ) : ℚ) := by positivity
  have hminmax : ((m + 1 : ℕ) : ℚ) * minA ≤ ((m + 1 : ℕ) : ℚ) * maxA :=
    mul_le_mul_of_nonneg_left (le_of_lt hlt) hnn
  have hnotlt : ¬ (total < ((m + 1 : ℕ) : ℚ) * minA) := by
    push_cast at hminmax hclamp ⊢
    linarith
  have hwarn : (decide (((m + 1 : ℕ) : ℚ) * maxA < total)) = true := decide_eq_true hclamp
  have hpre : ((m : ℚ) + 1) * (maxA - minA) < total - ((m + 1 : ℕ) : ℚ) * minA := by
    push_cast at hclamp ⊢
    nlinarith
  have hcl := allocAdds_clamp minA maxA draws hlt hd1 m 0
    (total - ((m + 1 : ℕ) : ℚ) * minA) hpre
  simp only [generateRandomAllocations]
  rw [if_neg hnotlt]
  simp only [hwarn, hcl.1]
  have hlast : min (maxA - minA)
      (allocAdds minA maxA draws 0 m (total - ((m + 1 : ℕ) : ℚ) * minA)).2 = maxA - minA :=
    min_eq_left (le_of_lt hcl.2)
  rw [hlast]
  simp only [List.map_map, Nat.add_sub_cancel]
  have hmap : List.map ((fun a => minA + a) ∘ fun j => draws (0 + j) * (maxA - minA))
      (List.range m) = List.map (fun j => minA + draws j * (maxA - minA)) (List.range m) := by
    apply List.map_congr_left
    intro j hj
    simp [Function.comp_apply]
  have hlastel : minA + (maxA - minA) = maxA := by ring
  rw [hmap, hlastel]

/-- C2 (witness): the amended theorem applied at n = 2, total = 5,
min = 0, max = 1 with the constant draw 1/2. -/
theorem allocation_clamp_amended_witness :
    (1 ≤ 2 ∧ ((2 : ℕ) : ℚ) * 1 < 5 ∧ (0 : ℚ) < 1 ∧ (∀ j : ℕ, (1 : ℚ)/2 ≤ 1)) ∧
    generateRandomAllocations 2 5 0 1 (fun _ => 1/2) =
      .ok ((List.range (2 - 1)).map (fun j => 0 + (1 : ℚ)/2 * (1 - 0)) ++ [1], true) :=
  ⟨⟨by norm_num, by norm_num, by norm_num, fun j => by norm_num⟩,
    allocation_clamp_amended 2 5 0 1 (fun _ => 1/2) (by norm_num) (by norm_num)
      (by norm_num) (fun j => by norm_num)⟩

/-! ### Claim C10 -/

/-- C10: a configuration with valid addresses, wallet count 10 in
[1,1000] and a well-formed RPC URL, but with the non-numeric gas amount
string "abc", is accepted by validateConfig: parseFloat of "abc" is NaN,
every guard comparison involving it is false, and the validator returns
without throwing, so executeOperation proceeds with NaN amounts. -/
theorem validateConfig_accepts_nan_gas :
    parseFloatJs "abc" = .nan ∧
    nanGasConfig.gasAmount = "abc" ∧
    JsNum.jle (parseFloatJs "abc") (.val 0) = false ∧
    validateConfig nanGasConfig = .ok () := by
  have hg : parseFloatJs "abc" = .nan := rfl
  refine ⟨hg, rfl, by rw [hg]; rfl, ?_⟩
  have hmin : parseFloatJs "0.01" = .val (1/100) := by
    show JsNum.val (1 * ((0:ℚ) + 1 / 10 ^ 2)) = _
    norm_num
  have hmax : parseFloatJs "0.02" = .val (1/50) := by
    show JsNum.val (1 * ((0:ℚ) + 2 / 10 ^ 2)) = _
    norm_num
  have hk : parseFloatJs "0" = .val 0 := by
    show JsNum.val (1 * ((0:ℕ) : ℚ)) = _
    norm_num
  have hrpc : strStartsWith "https://rpc.example" "http" = true := rfl
  have hfal : strFalsy "https://rpc.example" = false := rfl
  simp only [validateConfig, nanGasConfig, hg, hmin, hmax, hk, hrpc, hfal]
  norm_num [JsNum.jle, JsNum.jgt, JsNum.jlt]

/-- C8: a call to executeOperation while a run is already in progress
returns the already-running error immediately with the state unchanged,
no cleanup and an empty event trace; and after any call that did start
(success, failure or cancellation alike), isOperationRunning reports
false, since the finally clause clears the flag on every path. -/
theorem executeOperation_run_flag :
    (∀ (cfg : AppConfig) (env : Env) (s : MState), s.isRunning = true →
      executeOperation cfg env s = ⟨.errAlreadyRunning, s, false, []⟩) ∧
    (∀ (cfg : AppConfig) (env : Env) (s : MState), s.isRunning = false →
      isOperationRunning (executeOperation cfg env s).st = false) := by
  constructor
  · intro cfg env s h
    simp [executeOperation, h]
  · intro cfg env s h
    simp only [executeOperation, h, Bool.false_eq_true, if_false]
    cases (runPhases cfg env s.led).res <;> rfl

/-- C3 (counterexample): with an invalid token address the validation
error is indeed raised to the caller, but it is thrown inside the try
block, so the catch clause runs the cleanup-and-consolidate sweep before
re-raising — a leftover non-completed wallet from an earlier run is
mutated to completed, contradicting the claim that the error propagates
before any state mutation and without the sweep. -/
theorem cleanup_runs_on_config_error_cex :
    validateConfig cfgBadToken = .error .invalidTokenAddress ∧
    (executeOperation cfgBadToken fundFailEnv idleOneCreated).outcome = .err .invalidTokenAddress ∧
    (executeOperation cfgBadToken fundFailEnv idleOneCreated).cleanupRan = true ∧
    (executeOperation cfgBadToken fundFailEnv idleOneCreated).st.led.wallets = [⟨0, .completed⟩] ∧
    oneCreatedLedger.wallets = [⟨0, .created⟩] := by
  have hv : validateConfig cfgBadToken = .error .invalidTokenAddress := by
    simp [validateConfig, cfgBadToken, cfgGood]
  refine ⟨hv, ?_, ?_, ?_, rfl⟩ <;>
    simp [executeOperation, runPhases, hv, idleOneCreated, oneCreatedLedger,
      cleanupAndConsolidateFunds, cleanupLoop, cleanupStep, Ledger.updateWallet,
      fundFailEnv, trivCleanupEnv, List.enum] <;> norm_num

theorem saveTx_wallets (l : Ledger) (t : TxType) (w : ℕ) (a : ℚ) :
    ((l.saveTx t w a).1).wallets = l.wallets := rfl

theorem updateTx_wallets (l : Ledger) (i : ℕ) (st : TxStatus) :
    (l.updateTx i st).wallets = l.wallets := rfl

theorem cleanupStep_wallets_completed (ce : CleanupEnv) (mkq : ℚ) (idx : ℕ)
    (w : WalletRec) (rs : RS) (h : w.status = .completed) :
    (cleanupStep ce mkq idx w rs).led.wallets = rs.led.wallets := by
  simp [cleanupStep, h]

theorem cleanupStep_wallets_active (ce : CleanupEnv) (mkq : ℚ) (idx : ℕ)
    (w : WalletRec) (rs : RS) (h : ¬ w.status = .completed) :
    (cleanupStep ce mkq idx w rs).led.wallets =
      rs.led.wallets.map
        (fun r => if r.wid = w.wid then { r with status := .completed } else r) := by
  simp only [cleanupStep, h, if_neg, if_false]
  split_ifs <;> rfl

theorem cleanupStep_visits (ce : CleanupEnv) (mkq : ℚ) (idx : ℕ)
    (w : WalletRec) (rs : RS) :
    visitsOf (cleanupStep ce mkq idx w rs).evs =
      visitsOf rs.evs ++ (if w.status = .completed then [] else [w.wid]) := by
  by_cases h : w.status = .completed
  · simp [cleanupStep, h]
  · simp only [cleanupStep, h, if_neg, if_false]
    split_ifs <;> simp [visitsOf, List.filterMap_append]

theorem cleanupLoop_wallets (ce : CleanupEnv) (mkq : ℚ) :
    ∀ (entries : List (ℕ × WalletRec)) (rs : RS),
      (cleanupLoop ce mkq entries rs).led.wallets =
        rs.led.wallets.map (fun w =>
          if w.wid ∈ (entries.filter (fun p => ¬ p.2.status = .completed)).map
              (fun p => p.2.wid)
          then { w with status := .completed } else w) := by
  intro entries
  induction entries with
  | nil =>
    intro rs
    simp [cleanupLoop]
  | cons q rest ih =>
    intro rs
    by_cases h : q.2.status = .completed
    · have hfc : List.filter (fun p : ℕ × WalletRec => decide ¬ p.2.status = WStatus.completed)
          (q :: rest) = List.filter (fun p => decide ¬ p.2.status = WStatus.completed) rest := by
        rw [List.filter_cons]
        simp [h]
      have hstep := cleanupStep_wallets_completed ce mkq q.1 q.2 rs h
      calc (cleanupLoop ce mkq (q :: rest) rs).led.wallets
          = (cleanupLoop ce mkq rest (cleanupStep ce mkq q.1 q.2 rs)).led.wallets := rfl
        _ = _ := by
            rw [ih, hstep, hfc]
    · have hfc : List.filter (fun p : ℕ × WalletRec => decide ¬ p.2.status = WStatus.completed)
          (q :: rest) = q :: List.filter (fun p => decide ¬ p.2.status = WStatus.completed) rest := by
        rw [List.filter_cons]
        simp [h]
      have hstep := cleanupStep_wallets_active ce mkq q.1 q.2 rs h
      calc (cleanupLoop ce mkq (q :: rest) rs).led.wallets
          = (cleanupLoop ce mkq rest (cleanupStep ce mkq q.1 q.2 rs)).led.wallets := rfl
        _ = _ := by
            rw [ih, hstep, List.map_map, hfc, List.map_cons]
            apply List.map_congr_left
            intro r hr
            obtain ⟨rid, rst⟩ := r
            by_cases hw : rid = q.2.wid
            · simp [hw, List.mem_cons, ite_self, Function.comp_apply]
            · simp only [Function.comp_apply]
              rw [if_neg hw]
              have hcond : (rid ∈ q.2.wid :: (rest.filter
                  (fun p => ¬ p.2.status = .completed)).map (fun p => p.2.wid)) ↔
                  rid ∈ (rest.filter (fun p => ¬ p.2.status = .completed)).map
                    (fun p => p.2.wid) := by
                constructor
                · intro hc
                  rcases List.mem_cons.mp hc with h1 | h1
                  · exact absurd h1 hw
                  · exact h1
                · intro hc
                  exact List.mem_cons_of_mem _ hc
              exact if_congr hcond.symm rfl rfl

theorem cleanupLoop_visits (ce : CleanupEnv) (mkq : ℚ) :
    ∀ (entries : List (ℕ × WalletRec)) (rs : RS),
      visitsOf (cleanupLoop ce mkq entries rs).evs =
        visitsOf rs.evs ++
          (entries.filter (fun p => ¬ p.2.status = .completed)).map (fun p => p.2.wid) := by
  intro entries
  induction entries with
  | nil => intro rs; simp [cleanupLoop]
  | cons q rest ih =>
    intro rs
    have hstep := cleanupStep_visits ce mkq q.1 q.2 rs
    calc visitsOf (cleanupLoop ce mkq (q :: rest) rs).evs
        = visitsOf (cleanupLoop ce mkq rest (cleanupStep ce mkq q.1 q.2 rs)).evs := rfl
      _ = _ := by
          rw [ih, hstep]
          by_cases h : q.2.status = .completed <;>
            simp [List.filter_cons, h]

theorem enumFrom_filter_snd (P : WalletRec → Bool) (f : WalletRec → ℕ) :
    ∀ (l : List WalletRec) (s : ℕ),
      ((List.enumFrom s l).filter (fun p => P p.2)).map (fun p => f p.2) =
        (l.filter P).map f := by
  intro l
  induction l with
  | nil => intro s; rfl
  | cons x xs ih =>
    intro s
    simp only [List.enumFrom, List.filter_cons]
    by_cases h : P x
    · simp [h, ih (s + 1)]
    · simp [h, ih (s + 1)]

theorem cleanup_wallets_eq (cfg : AppConfig) (ce : CleanupEnv) (led : Ledger) :
    ((cleanupAndConsolidateFunds cfg ce led).1).wallets =
      led.wallets.map (fun w =>
        if w.wid ∈ (led.wallets.filter (fun r => ¬ r.status = .completed)).map
            (fun r => r.wid)
        then { w with status := .completed } else w) := by
  show (cleanupLoop ce _ led.wallets.enum ⟨led, [], 0⟩).led.wallets = _
  rw [cleanupLoop_wallets]
  have he : ((led.wallets.enum.filter (fun p => ¬ p.2.status = .completed)).map
      (fun p => p.2.wid)) =
      (led.wallets.filter (fun r => ¬ r.status = .completed)).map (fun r => r.wid) := by
    have := enumFrom_filter_snd (fun r => decide (¬ r.status = .completed))
      (fun r => r.wid) led.wallets 0
    simpa [List.enum] using this
  rw [he]

theorem cleanup_completes_all (cfg : AppConfig) (ce : CleanupEnv) (led : Ledger) :
    ∀ w ∈ ((cleanupAndConsolidateFunds cfg ce led).1).wallets, w.status = .completed := by
  intro w2 hw2
  rw [cleanup_wallets_eq] at hw2
  obtain ⟨w, hw, rfl⟩ := List.mem_map.mp hw2
  by_cases hc : w.wid ∈ (led.wallets.filter (fun r => ¬ r.status = .completed)).map
      (fun r => r.wid)
  · rw [if_pos hc]
  · rw [if_neg hc]
    by_contra hnc
    apply hc
    exact List.mem_map.mpr ⟨w, List.mem_filter.mpr ⟨hw, by simpa using hnc⟩, rfl⟩

theorem cleanup_wids_eq (cfg : AppConfig) (ce : CleanupEnv) (led : Ledger) :
    ((cleanupAndConsolidateFunds cfg ce led).1).wallets.map (fun w => w.wid) =
      led.wallets.map (fun w => w.wid) := by
  rw [cleanup_wallets_eq, List.map_map]
  apply List.map_congr_left
  intro w hw
  simp only [Function.comp_apply]
  by_cases hc : w.wid ∈ (led.wallets.filter (fun r => ¬ r.status = .completed)).map
      (fun r => r.wid)
  · rw [if_pos hc]
  · rw [if_neg hc]

theorem cleanup_visits_eq (cfg : AppConfig) (ce : CleanupEnv) (led : Ledger) :
    visitsOf (cleanupAndConsolidateFunds cfg ce led).2 =
      (led.wallets.filter (fun r => ¬ r.status = .completed)).map (fun r => r.wid) := by
  show visitsOf (cleanupLoop ce _ led.wallets.enum ⟨led, [], 0⟩).evs = _
  rw [cleanupLoop_visits]
  have he : ((led.wallets.enum.filter (fun p => ¬ p.2.status = .completed)).map
      (fun p => p.2.wid)) =
      (led.wallets.filter (fun r => ¬ r.status = .completed)).map (fun r => r.wid) := by
    have := enumFrom_filter_snd (fun r => decide (¬ r.status = .completed))
      (fun r => r.wid) led.wallets 0
    simpa [List.enum] using this
  rw [he]
  simp [visitsOf]


theorem fundStep_evs (env : Env) (gq : ℚ) (e : WEntry) (rs : RS) :
    (fundStep env gq e rs).evs = rs.evs ++
      ([.savedTx rs.led.nextTxId .fund_transfer e.2.1, .submit .fund_transfer e.2.1] ++
       (if env.fundOk e.1 then
          [.updatedTx rs.led.nextTxId .success, .updatedWallet e.2.1 .funded]
        else [.updatedWallet e.2.1 .created])) := by
  by_cases h : env.fundOk e.1 <;>
    simp [fundStep, h, Ledger.saveTx, List.append_assoc]

theorem swapStep_evs (env : Env) (gq : ℚ) (e : WEntry) (rs : RS) :
    (swapStep env gq e rs).evs = rs.evs ++
      (if swapAmount env gq e ≤ 0 then []
       else [.savedTx rs.led.nextTxId .token_swap e.2.1, .submit .token_swap e.2.1] ++
         (if env.swapOk e.1 then
            [.updatedTx rs.led.nextTxId .success, .updatedWallet e.2.1 .swapped]
          else [])) := by
  by_cases h : swapAmount env gq e ≤ 0
  · simp [swapStep, h]
  · by_cases h2 : env.swapOk e.1 <;>
      simp [swapStep, h, h2, Ledger.saveTx, List.append_assoc]

theorem transferStep_evs (env : Env) (mkq : ℚ) (e : WEntry) (rs : RS) :
    (transferStep env mkq e rs).evs = rs.evs ++
      ((if 1 / 1000000 < env.tokenBal e.1 - mkq then
          [.savedTx rs.led.nextTxId .token_transfer e.2.1, .submit .token_transfer e.2.1,
           .updatedTx rs.led.nextTxId (if env.tokOk e.1 then .success else .failed)]
        else []) ++
       (if 10000000000000 < env.ethBalWei e.1 ∧
            0 < env.ethBalWei e.1 - 21000 * effGasPrice env.gasPriceWei * 2 then
          [.savedTx (rs.led.nextTxId + (if 1 / 1000000 < env.tokenBal e.1 - mkq then 1 else 0))
             .eth_transfer e.2.1, .submit .eth_transfer e.2.1] ++
          (if env.ethOk e.1 then
             [.updatedTx (rs.led.nextTxId +
               (if 1 / 1000000 < env.tokenBal e.1 - mkq then 1 else 0)) .success]
           else [])
        else []) ++
       [.updatedWallet e.2.1 .completed]) := by
  by_cases h1 : (1000000⁻¹ : ℚ) < env.tokenBal e.1 - mkq <;>
    by_cases h2 : 10000000000000 < env.ethBalWei e.1 <;>
      by_cases h3 : 0 < env.ethBalWei e.1 - 21000 * effGasPrice env.gasPriceWei * 2 <;>
        by_cases h4 : env.tokOk e.1 <;>
          by_cases h5 : env.ethOk e.1 <;>
            simp [transferStep, h1, h2, h3, h4, h5, Ledger.saveTx, Ledger.updateTx,
              Ledger.updateWallet, List.append_assoc]

theorem cleanupStep_evs (ce : CleanupEnv) (mkq : ℚ) (idx : ℕ) (w : WalletRec) (rs : RS) :
    (cleanupStep ce mkq idx w rs).evs = rs.evs ++
      (if w.status = .completed then [] else
        [.cleanupVisit w.wid] ++
        (if 0 < ce.tokBal idx ∧ 0 < ce.tokBal idx - mkq then
          [.savedTx rs.led.nextTxId .token_transfer w.wid, .submit .token_transfer w.wid] ++
          (if ce.tokOk idx then [.updatedTx rs.led.nextTxId .success] else [])
         else []) ++
        (if 1 / 10000 < ce.ethBal idx - 1 / 10000 then
          [.savedTx (rs.led.nextTxId +
             (if 0 < ce.tokBal idx ∧ 0 < ce.tokBal idx - mkq then 1 else 0))
             .eth_transfer w.wid, .submit .eth_transfer w.wid] ++
          (if ce.ethOk idx then
             [.updatedTx (rs.led.nextTxId +
               (if 0 < ce.tokBal idx ∧ 0 < ce.tokBal idx - mkq then 1 else 0)) .success]
           else [])
         else []) ++
        [.updatedWallet w.wid .completed]) := by
  by_cases h0 : w.status = .completed
  · simp [cleanupStep, h0]
  · by_cases h1 : 0 < ce.tokBal idx <;>
      by_cases h2 : 0 < ce.tokBal idx - mkq <;>
        by_cases h3 : (10000⁻¹ : ℚ) < ce.ethBal idx - 10000⁻¹ <;>
          by_cases h4 : ce.tokOk idx <;>
            by_cases h5 : ce.ethOk idx <;>
              simp [cleanupStep, h0, h1, h2, h3, h4, h5, Ledger.saveTx, Ledger.updateTx,
                Ledger.updateWallet, List.append_assoc]


theorem stopNow_none (env : Env) (h : env.stopAt = none) (c : ℕ) :
    stopNow env c = false := by
  simp [stopNow, h]

theorem fundStep_visits (env : Env) (gq : ℚ) (e : WEntry) (rs : RS) :
    visitsOf (fundStep env gq e rs).evs = visitsOf rs.evs := by
  rw [fundStep_evs]
  simp only [visitsOf, List.filterMap_append]
  split_ifs <;> simp [List.filterMap_cons, List.filterMap_nil]

theorem fundStep_funded (env : Env) (gq : ℚ) (e : WEntry) (rs : RS) :
    fundedOf (fundStep env gq e rs).evs =
      fundedOf rs.evs ++ (if env.fundOk e.1 then [e.2.1] else []) := by
  rw [fundStep_evs]
  simp only [fundedOf, List.filterMap_append]
  split_ifs <;> simp [List.filterMap_cons, List.filterMap_nil]

theorem fundStep_created (env : Env) (gq : ℚ) (e : WEntry) (rs : RS) :
    createdOf (fundStep env gq e rs).evs =
      createdOf rs.evs ++ (if env.fundOk e.1 then [] else [e.2.1]) := by
  rw [fundStep_evs]
  simp only [createdOf, List.filterMap_append]
  split_ifs <;> simp [List.filterMap_cons, List.filterMap_nil]

theorem fundStep_swapTouch (env : Env) (gq : ℚ) (e : WEntry) (rs : RS) :
    swapTouchOf (fundStep env gq e rs).evs = swapTouchOf rs.evs := by
  rw [fundStep_evs]
  simp only [swapTouchOf, List.filterMap_append]
  split_ifs <;> simp [List.filterMap_cons, List.filterMap_nil]

theorem swapStep_visits (env : Env) (gq : ℚ) (e : WEntry) (rs : RS) :
    visitsOf (swapStep env gq e rs).evs = visitsOf rs.evs := by
  rw [swapStep_evs]
  simp only [visitsOf, List.filterMap_append]
  split_ifs <;> simp [List.filterMap_cons, List.filterMap_nil]

theorem swapStep_funded (env : Env) (gq : ℚ) (e : WEntry) (rs : RS) :
    fundedOf (swapStep env gq e rs).evs = fundedOf rs.evs := by
  rw [swapStep_evs]
  simp only [fundedOf, List.filterMap_append]
  split_ifs <;> simp [List.filterMap_cons, List.filterMap_nil]

theorem swapStep_created (env : Env) (gq : ℚ) (e : WEntry) (rs : RS) :
    createdOf (swapStep env gq e rs).evs = createdOf rs.evs := by
  rw [swapStep_evs]
  simp only [createdOf, List.filterMap_append]
  split_ifs <;> simp [List.filterMap_cons, List.filterMap_nil]

theorem swapStep_swapTouch (env : Env) (gq : ℚ) (e : WEntry) (rs : RS) :
    swapTouchOf (swapStep env gq e rs).evs =
      swapTouchOf rs.evs ++ (if swapAmount env gq e ≤ 0 then [] else [e.2.1, e.2.1]) := by
  rw [swapStep_evs]
  simp only [swapTouchOf, List.filterMap_append]
  split_ifs <;> simp [List.filterMap_cons, List.filterMap_nil]

theorem transferStep_visits (env : Env) (mkq : ℚ) (e : WEntry) (rs : RS) :
    visitsOf (transferStep env mkq e rs).evs = visitsOf rs.evs := by
  rw [transferStep_evs]
  simp only [visitsOf, List.filterMap_append]
  split_ifs <;> simp [List.filterMap_cons, List.filterMap_nil]

theorem transferStep_funded (env : Env) (mkq : ℚ) (e : WEntry) (rs : RS) :
    fundedOf (transferStep env mkq e rs).evs = fundedOf rs.evs := by
  rw [transferStep_evs]
  simp only [fundedOf, List.filterMap_append]
  split_ifs <;> simp [List.filterMap_cons, List.filterMap_nil]

theorem transferStep_created (env : Env) (mkq : ℚ) (e : WEntry) (rs : RS) :
    createdOf (transferStep env mkq e rs).evs = createdOf rs.evs := by
  rw [transferStep_evs]
  simp only [createdOf, List.filterMap_append]
  split_ifs <;> simp [List.filterMap_cons, List.filterMap_nil]

theorem transferStep_swapTouch (env : Env) (mkq : ℚ) (e : WEntry) (rs : RS) :
    swapTouchOf (transferStep env mkq e rs).evs = swapTouchOf rs.evs := by
  rw [transferStep_evs]
  simp only [swapTouchOf, List.filterMap_append]
  split_ifs <;> simp [List.filterMap_cons, List.filterMap_nil]

theorem cleanupStep_savedWallets (ce : CleanupEnv) (mkq : ℚ) (idx : ℕ)
    (w : WalletRec) (rs : RS) :
    savedWalletsOf (cleanupStep ce mkq idx w rs).evs = savedWalletsOf rs.evs := by
  rw [cleanupStep_evs]
  simp only [savedWalletsOf, List.filterMap_append]
  split_ifs <;> simp [List.filterMap_cons, List.filterMap_nil]


theorem fundLoop_visits (env : Env) (gq : ℚ) :
    ∀ (ws : List WEntry) (rs : RS),
      visitsOf (fundLoop env gq ws rs).evs = visitsOf rs.evs := by
  intro ws
  induction ws with
  | nil => intro rs; rfl
  | cons e rest ih =>
    intro rs
    by_cases hstop : stopNow env rs.chk = true
    · simp [fundLoop, hstop]
    · simp only [fundLoop, hstop, if_false, Bool.false_eq_true]
      rw [ih, fundStep_visits]

theorem fundLoop_funded (env : Env) (gq : ℚ) (hstop : env.stopAt = none) :
    ∀ (ws : List WEntry) (rs : RS),
      fundedOf (fundLoop env gq ws rs).evs =
        fundedOf rs.evs ++ (ws.filter (fun e => env.fundOk e.1)).map (fun e => e.2.1) := by
  intro ws
  induction ws with
  | nil => intro rs; simp [fundLoop]
  | cons e rest ih =>
    intro rs
    simp only [fundLoop, stopNow_none env hstop, if_false, Bool.false_eq_true]
    rw [ih, fundStep_funded, List.filter_cons]
    by_cases h : env.fundOk e.1 <;> simp [h]

theorem fundLoop_created (env : Env) (gq : ℚ) (hstop : env.stopAt = none) :
    ∀ (ws : List WEntry) (rs : RS),
      createdOf (fundLoop env gq ws rs).evs =
        createdOf rs.evs ++ (ws.filter (fun e => ¬ env.fundOk e.1)).map (fun e => e.2.1) := by
  intro ws
  induction ws with
  | nil => intro rs; simp [fundLoop]
  | cons e rest ih =>
    intro rs
    simp only [fundLoop, stopNow_none env hstop, if_false, Bool.false_eq_true]
    rw [ih, fundStep_created, List.filter_cons]
    by_cases h : env.fundOk e.1 <;> simp [h]

theorem fundLoop_swapTouch (env : Env) (gq : ℚ) :
    ∀ (ws : List WEntry) (rs : RS),
      swapTouchOf (fundLoop env gq ws rs).evs = swapTouchOf rs.evs := by
  intro ws
  induction ws with
  | nil => intro rs; rfl
  | cons e rest ih =>
    intro rs
    by_cases hstop : stopNow env rs.chk = true
    · simp [fundLoop, hstop]
    · simp only [fundLoop, hstop, if_false, Bool.false_eq_true]
      rw [ih, fundStep_swapTouch]

theorem swapLoop_visits (env : Env) (gq : ℚ) :
    ∀ (ws : List WEntry) (rs : RS),
      visitsOf (swapLoop env gq ws rs).evs = visitsOf rs.evs := by
  intro ws
  induction ws with
  | nil => intro rs; rfl
  | cons e rest ih =>
    intro rs
    by_cases hstop : stopNow env rs.chk = true
    · simp [swapLoop, hstop]
    · simp only [swapLoop, hstop, if_false, Bool.false_eq_true]
      rw [ih, swapStep_visits]

theorem swapLoop_funded (env : Env) (gq : ℚ) :
    ∀ (ws : List WEntry) (rs : RS),
      fundedOf (swapLoop env gq ws rs).evs = fundedOf rs.evs := by
  intro ws
  induction ws with
  | nil => intro rs; rfl
  | cons e rest ih =>
    intro rs
    by_cases hstop : stopNow env rs.chk = true
    · simp [swapLoop, hstop]
    · simp only [swapLoop, hstop, if_false, Bool.false_eq_true]
      rw [ih, swapStep_funded]

theorem swapLoop_created (env : Env) (gq : ℚ) :
    ∀ (ws : List WEntry) (rs : RS),
      createdOf (swapLoop env gq ws rs).evs = createdOf rs.evs := by
  intro ws
  induction ws with
  | nil => intro rs; rfl
  | cons e rest ih =>
    intro rs
    by_cases hstop : stopNow env rs.chk = true
    · simp [swapLoop, hstop]
    · simp only [swapLoop, hstop, if_false, Bool.false_eq_true]
      rw [ih, swapStep_created]

theorem swapLoop_swapTouch_sub (env : Env) (gq : ℚ) :
    ∀ (ws : List WEntry) (rs : RS) (w : ℕ),
      w ∈ swapTouchOf (swapLoop env gq ws rs).evs →
        w ∈ swapTouchOf rs.evs ∨ ∃ e ∈ ws, e.2.1 = w ∧ ¬ swapAmount env gq e ≤ 0 := by
  intro ws
  induction ws with
  | nil =>
    intro rs w hw
    exact Or.inl hw
  | cons e rest ih =>
    intro rs w hw
    by_cases hstop : stopNow env rs.chk = true
    · simp only [swapLoop, hstop, if_true] at hw
      exact Or.inl hw
    · simp only [swapLoop, hstop, if_false, Bool.false_eq_true] at hw
      rcases ih _ w hw with hin | ⟨e2, he2, hwid, hatt⟩
      · rw [swapStep_swapTouch] at hin
        rcases List.mem_append.mp hin with h1 | h2
        · exact Or.inl h1
        · by_cases hatt : swapAmount env gq e ≤ 0
          · rw [if_pos hatt] at h2
            cases h2
          · rw [if_neg hatt] at h2
            have hwid : e.2.1 = w := by
              rcases List.mem_cons.mp h2 with h3 | h3
              · exact h3.symm
              · have h4 : w = e.2.1 := by simpa using h3
                exact h4.symm
            exact Or.inr ⟨e, List.mem_cons_self e rest, hwid, hatt⟩
      · exact Or.inr ⟨e2, List.mem_cons_of_mem e he2, hwid, hatt⟩

theorem transferLoop_visits (env : Env) (mkq : ℚ) :
    ∀ (ws : List WEntry) (rs : RS),
      visitsOf (transferLoop env mkq ws rs).evs = visitsOf rs.evs := by
  intro ws
  induction ws with
  | nil => intro rs; rfl
  | cons e rest ih =>
    intro rs
    by_cases hstop : stopNow env rs.chk = true
    · simp [transferLoop, hstop]
    · simp only [transferLoop, hstop, if_false, Bool.false_eq_true]
      rw [ih, transferStep_visits]

theorem transferLoop_funded (env : Env) (mkq : ℚ) :
    ∀ (ws : List WEntry) (rs : RS),
      fundedOf (transferLoop env mkq ws rs).evs = fundedOf rs.evs := by
  intro ws
  induction ws with
  | nil => intro rs; rfl
  | cons e rest ih =>
    intro rs
    by_cases hstop : stopNow env rs.chk = true
    · simp [transferLoop, hstop]
    · simp only [transferLoop, hstop, if_false, Bool.false_eq_true]
      rw [ih, transferStep_funded]

theorem transferLoop_created (env : Env) (mkq : ℚ) :
    ∀ (ws : List WEntry) (rs : RS),
      createdOf (transferLoop env mkq ws rs).evs = createdOf rs.evs := by
  intro ws
  induction ws with
  | nil => intro rs; rfl
  | cons e rest ih =>
    intro rs
    by_cases hstop : stopNow env rs.chk = true
    · simp [transferLoop, hstop]
    · simp only [transferLoop, hstop, if_false, Bool.false_eq_true]
      rw [ih, transferStep_created]

theorem transferLoop_swapTouch (env : Env) (mkq : ℚ) :
    ∀ (ws : List WEntry) (rs : RS),
      swapTouchOf (transferLoop env mkq ws rs).evs = swapTouchOf rs.evs := by
  intro ws
  induction ws with
  | nil => intro rs; rfl
  | cons e rest ih =>
    intro rs
    by_cases hstop : stopNow env rs.chk = true
    · simp [transferLoop, hstop]
    · simp only [transferLoop, hstop, if_false, Bool.false_eq_true]
      rw [ih, transferStep_swapTouch]

theorem cleanupLoop_savedWallets (ce : CleanupEnv) (mkq : ℚ) :
    ∀ (entries : List (ℕ × WalletRec)) (rs : RS),
      savedWalletsOf (cleanupLoop ce mkq entries rs).evs = savedWalletsOf rs.evs := by
  intro entries
  induction entries with
  | nil => intro rs; rfl
  | cons q rest ih =>
    intro rs
    show savedWalletsOf (cleanupLoop ce mkq rest (cleanupStep ce mkq q.1 q.2 rs)).evs = _
    rw [ih, cleanupStep_savedWallets]


theorem append_map_range_succ {α : Type} (l : List α) (f : ℕ → α) (m : ℕ) :
    l ++ (List.range (m + 1)).map f = (l ++ [f 0]) ++ (List.range m).map (fun j => f (j + 1)) := by
  rw [List.range_succ_eq_map]
  simp only [List.map_cons, List.map_map, List.append_assoc, List.singleton_append]
  have : (f ∘ Nat.succ) = (fun j => f (j + 1)) := by
    funext j
    simp [Function.comp, Nat.succ_eq_add_one]
  rw [this]

theorem createLoop_visits (env : Env) (allocs : List ℚ) :
    ∀ (idxs : List ℕ) (rs : RS) (acc : List WEntry),
      visitsOf (createLoop env allocs idxs rs acc).1.evs = visitsOf rs.evs := by
  intro idxs
  induction idxs with
  | nil => intro rs acc; rfl
  | cons i rest ih =>
    intro rs acc
    by_cases hstop : stopNow env rs.chk = true
    · simp [createLoop, hstop]
    · by_cases hok : env.createOk i = true
      · simp only [createLoop, hstop, hok, if_false, if_true, Bool.false_eq_true]
        rw [ih]
        simp [visitsOf, List.filterMap_append]
      · simp [createLoop, hstop, hok]

theorem createLoop_ok_eq (env : Env) (allocs : List ℚ)
    (hstop : env.stopAt = none) (hok : ∀ i, env.createOk i = true) :
    ∀ (k s : ℕ) (rs : RS) (acc : List WEntry),
      createLoop env allocs (List.range' s k) rs acc =
        (⟨{ rs.led with
              wallets := rs.led.wallets ++
                (List.range k).map (fun j => ⟨rs.led.nextWid + j, .created⟩),
              nextWid := rs.led.nextWid + k },
          rs.evs ++ (List.range k).map (fun j => .savedWallet (rs.led.nextWid + j)),
          rs.chk + k⟩,
         .ok (acc ++ (List.range k).map
           (fun j => (s + j, rs.led.nextWid + j, allocs.getD (s + j) 0)))) := by
  intro k
  induction k with
  | zero =>
    intro s rs acc
    obtain ⟨⟨lw, lt, lnw, lnt⟩, evs, chk⟩ := rs
    simp [createLoop, List.range']
  | succ m ih =>
    intro s rs acc
    have hrr : List.range' s (m + 1) = s :: List.range' (s + 1) m := List.range'_succ s m 1
    rw [hrr]
    show createLoop env allocs (s :: List.range' (s + 1) m) rs acc = _
    simp only [createLoop, stopNow_none env hstop, hok s, if_true, if_false,
      Bool.false_eq_true]
    rw [ih (s + 1)]
    simp only [Ledger.saveWallet]
    refine Prod.ext ?_ ?_
    · show RS.mk _ _ _ = RS.mk _ _ _
      have hw : (rs.led.wallets ++ [⟨rs.led.nextWid, .created⟩]) ++
          (List.range m).map (fun j => WalletRec.mk (rs.led.nextWid + 1 + j) .created) =
          rs.led.wallets ++ (List.range (m + 1)).map
            (fun j => WalletRec.mk (rs.led.nextWid + j) .created) := by
        rw [append_map_range_succ rs.led.wallets
          (fun j => WalletRec.mk (rs.led.nextWid + j) .created) m]
        simp only [Nat.add_zero]
        congr 1
        apply List.map_congr_left
        intro j hj
        congr 1
        omega
      have he : (rs.evs ++ [Ev.savedWallet rs.led.nextWid]) ++
          (List.range m).map (fun j => Ev.savedWallet (rs.led.nextWid + 1 + j)) =
          rs.evs ++ (List.range (m + 1)).map
            (fun j => Ev.savedWallet (rs.led.nextWid + j)) := by
        rw [append_map_range_succ rs.evs (fun j => Ev.savedWallet (rs.led.nextWid + j)) m]
        simp only [Nat.add_zero]
        congr 1
        apply List.map_congr_left
        intro j hj
        congr 1
        omega
      simp only [hw, he]
      congr 1
      · congr 1
        omega
      · omega
    · show Except.ok _ = Except.ok _
      congr 1
      have ha : (acc ++ [(s, rs.led.nextWid, allocs.getD s 0)]) ++
          (List.range m).map (fun j => (s + 1 + j, rs.led.nextWid + 1 + j,
            allocs.getD (s + 1 + j) 0)) =
          acc ++ (List.range (m + 1)).map
            (fun j => (s + j, rs.led.nextWid + j, allocs.getD (s + j) 0)) := by
        rw [append_map_range_succ acc
          (fun j => (s + j, rs.led.nextWid + j, allocs.getD (s + j) 0)) m]
        simp only [Nat.add_zero]
        congr 1
        apply List.map_congr_left
        intro j hj
        have h1 : s + (j + 1) = s + 1 + j := by omega
        have h2 : rs.led.nextWid + (j + 1) = rs.led.nextWid + 1 + j := by omega
        rw [h1, h2]
      exact ha


theorem fundStep_chk (env : Env) (gq : ℚ) (e : WEntry) (rs : RS) :
    (fundStep env gq e rs).chk = rs.chk := by
  by_cases h : env.fundOk e.1 <;> simp [fundStep, h]

theorem swapStep_chk (env : Env) (gq : ℚ) (e : WEntry) (rs : RS) :
    (swapStep env gq e rs).chk = rs.chk := by
  by_cases h : swapAmount env gq e ≤ 0
  · simp [swapStep, h]
  · by_cases h2 : env.swapOk e.1 <;> simp [swapStep, h, h2]

theorem transferStep_chk (env : Env) (mkq : ℚ) (e : WEntry) (rs : RS) :
    (transferStep env mkq e rs).chk = rs.chk := by
  by_cases h1 : (1000000⁻¹ : ℚ) < env.tokenBal e.1 - mkq <;>
    by_cases h2 : 10000000000000 < env.ethBalWei e.1 <;>
      by_cases h3 : 0 < env.ethBalWei e.1 - 21000 * effGasPrice env.gasPriceWei * 2 <;>
        by_cases h4 : env.tokOk e.1 <;>
          by_cases h5 : env.ethOk e.1 <;>
            simp [transferStep, h1, h2, h3, h4, h5]

theorem fundLoop_chk (env : Env) (gq : ℚ) (hstop : env.stopAt = none) :
    ∀ (ws : List WEntry) (rs : RS),
      (fundLoop env gq ws rs).chk = rs.chk + ws.length := by
  intro ws
  induction ws with
  | nil => intro rs; rfl
  | cons e rest ih =>
    intro rs
    simp only [fundLoop, stopNow_none env hstop, if_false, Bool.false_eq_true]
    rw [ih, fundStep_chk]
    simp only [List.length_cons]
    omega

theorem swapLoop_chk (env : Env) (gq : ℚ) (hstop : env.stopAt = none) :
    ∀ (ws : List WEntry) (rs : RS),
      (swapLoop env gq ws rs).chk = rs.chk + ws.length := by
  intro ws
  induction ws with
  | nil => intro rs; rfl
  | cons e rest ih =>
    intro rs
    simp only [swapLoop, stopNow_none env hstop, if_false, Bool.false_eq_true]
    rw [ih, swapStep_chk]
    simp only [List.length_cons]
    omega

theorem transferLoop_chk (env : Env) (mkq : ℚ) (hstop : env.stopAt = none) :
    ∀ (ws : List WEntry) (rs : RS),
      (transferLoop env mkq ws rs).chk = rs.chk + ws.length := by
  intro ws
  induction ws with
  | nil => intro rs; rfl
  | cons e rest ih =>
    intro rs
    simp only [transferLoop, stopNow_none env hstop, if_false, Bool.false_eq_true]
    rw [ih, transferStep_chk]
    simp only [List.length_cons]
    omega


theorem runPhases_full (cfg : AppConfig) (env : Env) (led : Ledger)
    (allocs : List ℚ) (warned : Bool)
    (hv : validateConfig cfg = .ok ())
    (halloc : generateRandomAllocations cfg.numWallets
        (env.masterBalance - (parseFloatJs cfg.gasAmount).toQ * cfg.numWallets)
        (parseFloatJs cfg.minPurchaseAmount).toQ
        (parseFloatJs cfg.maxPurchaseAmount).toQ env.draws = .ok (allocs, warned))
    (hbal : ¬ (env.masterBalance <
        (parseFloatJs cfg.gasAmount).toQ * cfg.numWallets + allocs.sum))
    (hstop : env.stopAt = none)
    (hok : ∀ i, env.createOk i = true) :
    runPhases cfg env led =
      (let gq := (parseFloatJs cfg.gasAmount).toQ
       let mkq := (parseFloatJs cfg.minKeptTokens).toQ
       let n := cfg.numWallets
       let w0 := led.nextWid
       let evs0 : List Ev := if warned then [Ev.excessWarn] else []
       let ws : List WEntry := (List.range n).map (fun j => (j, w0 + j, allocs.getD j 0))
       let rs1 : RS := ⟨{ led with
           wallets := led.wallets ++ (List.range n).map (fun j => ⟨w0 + j, WStatus.created⟩),
           nextWid := w0 + n },
         evs0 ++ (List.range n).map (fun j => Ev.savedWallet (w0 + j)), n + 1⟩
       let rs2 := fundLoop env gq ws rs1
       let rs3 := swapLoop env gq ws { rs2 with chk := rs2.chk + 1 }
       let rs4 := transferLoop env mkq ws { rs3 with chk := rs3.chk + 1 }
       (⟨rs4.led, rs4.evs, rs4.chk, PhaseRes.completed⟩ : PhaseOut)) := by
  have hcl := createLoop_ok_eq env allocs hstop hok cfg.numWallets 0
    ⟨led, (if warned then [Ev.excessWarn] else []), 0⟩ []
  have hmapws : (List.range cfg.numWallets).map
      (fun j => (0 + j, led.nextWid + j, allocs.getD (0 + j) 0)) =
      (List.range cfg.numWallets).map
      (fun j => (j, led.nextWid + j, allocs.getD j 0)) := by
    apply List.map_congr_left
    intro j hj
    simp
  simp only [runPhases, hv, halloc]
  rw [if_neg hbal, List.range_eq_range', hcl]
  simp only [hmapws, List.nil_append, Nat.zero_add]
  simp only [stopNow_none env hstop, if_false, Bool.false_eq_true]
  simp only [← List.range_eq_range']



theorem runPhases_visits (cfg : AppConfig) (env : Env) (led : Ledger) :
    visitsOf (runPhases cfg env led).evs = [] := by
  have hevs0 : ∀ b : Bool, visitsOf (if b = true then [Ev.excessWarn] else []) = [] := by
    intro b
    cases b <;> rfl
  unfold runPhases
  split
  · rfl
  · dsimp only
    split
    · rfl
    · rename_i allocs warned heqA
      split
      · exact hevs0 _
      · split
        · rename_i rs1 e heq
          have hc := createLoop_visits env allocs (List.range cfg.numWallets)
            ⟨led, if warned = true then [Ev.excessWarn] else [], 0⟩ []
          rw [heq] at hc
          rw [show (rs1, Except.error (ε := ErrKind) (α := List WEntry) e).1 = rs1 from rfl] at hc
          rw [hc]
          exact hevs0 _
        · rename_i rs1 ws heq
          have hc := createLoop_visits env allocs (List.range cfg.numWallets)
            ⟨led, if warned = true then [Ev.excessWarn] else [], 0⟩ []
          rw [heq] at hc
          rw [show (rs1, Except.ok (ε := ErrKind) ws).1 = rs1 from rfl] at hc
          split
          · rw [hc]
            exact hevs0 _
          · split
            · rw [fundLoop_visits env (parseFloatJs cfg.gasAmount).toQ ws
                ⟨rs1.led, rs1.evs, rs1.chk + 1⟩]
              rw [show (⟨rs1.led, rs1.evs, rs1.chk + 1⟩ : RS).evs = rs1.evs from rfl, hc]
              exact hevs0 _
            · split
              · rw [swapLoop_visits env (parseFloatJs cfg.gasAmount).toQ ws _]
                rw [show ∀ rs : RS, (⟨rs.led, rs.evs, rs.chk + 1⟩ : RS).evs = rs.evs
                  from fun rs => rfl]
                rw [fundLoop_visits env (parseFloatJs cfg.gasAmount).toQ ws
                  ⟨rs1.led, rs1.evs, rs1.chk + 1⟩]
                rw [show (⟨rs1.led, rs1.evs, rs1.chk + 1⟩ : RS).evs = rs1.evs from rfl, hc]
                exact hevs0 _
              · rw [transferLoop_visits env (parseFloatJs cfg.minKeptTokens).toQ ws _]
                rw [show ∀ rs : RS, (⟨rs.led, rs.evs, rs.chk + 1⟩ : RS).evs = rs.evs
                  from fun rs => rfl]
                rw [swapLoop_visits env (parseFloatJs cfg.gasAmount).toQ ws _]
                rw [show ∀ rs : RS, (⟨rs.led, rs.evs, rs.chk + 1⟩ : RS).evs = rs.evs
                  from fun rs => rfl]
                rw [fundLoop_visits env (parseFloatJs cfg.gasAmount).toQ ws
                  ⟨rs1.led, rs1.evs, rs1.chk + 1⟩]
                rw [show (⟨rs1.led, rs1.evs, rs1.chk + 1⟩ : RS).evs = rs1.evs from rfl, hc]
                exact hevs0 _


/-- C5: any fatal error escaping the phases is caught by executeOperation,
which runs the cleanup sweep — visiting exactly the non-completed wallets
of the ledger, each once, in order — leaves every wallet completed while
preserving the wallet ids, and re-raises the original error as the
outcome. -/
theorem fatal_triggers_cleanup (cfg : AppConfig) (env : Env) (s : MState) (e : ErrKind)
    (hrun : s.isRunning = false)
    (hfatal : (runPhases cfg env s.led).res = .fatal e) :
    (executeOperation cfg env s).outcome = .err e ∧
    (executeOperation cfg env s).cleanupRan = true ∧
    visitsOf (executeOperation cfg env s).evs =
      (((runPhases cfg env s.led).led.wallets.filter
        (fun w => ¬ w.status = .completed)).map (fun w => w.wid)) ∧
    (∀ w ∈ (executeOperation cfg env s).st.led.wallets, w.status = .completed) ∧
    (executeOperation cfg env s).st.led.wallets.map (fun w => w.wid) =
      (runPhases cfg env s.led).led.wallets.map (fun w => w.wid) := by
  have hout : executeOperation cfg env s =
      ⟨.err e, ⟨false, (cleanupAndConsolidateFunds cfg env.cl (runPhases cfg env s.led).led).1⟩,
        true,
        (runPhases cfg env s.led).evs ++
          (cleanupAndConsolidateFunds cfg env.cl (runPhases cfg env s.led).led).2⟩ := by
    simp only [executeOperation, hrun, Bool.false_eq_true, if_false]
    rw [hfatal]
  rw [hout]
  refine ⟨rfl, rfl, ?_, ?_, ?_⟩
  · show visitsOf ((runPhases cfg env s.led).evs ++
      (cleanupAndConsolidateFunds cfg env.cl (runPhases cfg env s.led).led).2) = _
    simp only [visitsOf, List.filterMap_append]
    show visitsOf _ ++ visitsOf _ = _
    rw [runPhases_visits, cleanup_visits_eq]
    simp
  · exact cleanup_completes_all cfg env.cl (runPhases cfg env s.led).led
  · exact cleanup_wids_eq cfg env.cl (runPhases cfg env s.led).led


theorem parse_two : parseFloatJs "2" = .val 2 := by
  show JsNum.val (1 * ((2 : ℕ) : ℚ)) = _
  norm_num

theorem parse_three : parseFloatJs "3" = .val 3 := by
  show JsNum.val (1 * ((3 : ℕ) : ℚ)) = _
  norm_num

theorem parse_five : parseFloatJs "5" = .val 5 := by
  show JsNum.val (1 * ((5 : ℕ) : ℚ)) = _
  norm_num

theorem parse_zero : parseFloatJs "0" = .val 0 := by
  show JsNum.val (1 * ((0 : ℕ) : ℚ)) = _
  norm_num

theorem validate_cfgGood : validateConfig cfgGood = .ok () := by
  have hrpc : strStartsWith "https://rpc.example" "http" = true := rfl
  have hfal : strFalsy "https://rpc.example" = false := rfl
  simp only [validateConfig, cfgGood, parse_two, parse_three, parse_five, parse_zero,
    hrpc, hfal]
  norm_num [JsNum.jle, JsNum.jgt, JsNum.jlt]

theorem alloc_cfgGood_createFail :
    generateRandomAllocations cfgGood.numWallets
      (createFailEnv.masterBalance -
        (parseFloatJs cfgGood.gasAmount).toQ * cfgGood.numWallets)
      (parseFloatJs cfgGood.minPurchaseAmount).toQ
      (parseFloatJs cfgGood.maxPurchaseAmount).toQ createFailEnv.draws = .ok ([5], true) := by
  show generateRandomAllocations 1
    (createFailEnv.masterBalance - (parseFloatJs "2").toQ * (1 : ℕ))
    (parseFloatJs "3").toQ (parseFloatJs "5").toQ createFailEnv.draws = _
  rw [parse_two, parse_three, parse_five]
  show generateRandomAllocations 1 ((10 : ℚ) - 2 * (1 : ℕ)) 3 5 (fun _ => 0) = _
  norm_num [generateRandomAllocations, allocAdds]

theorem runPhases_createFail :
    (runPhases cfgGood createFailEnv oneCreatedLedger).res =
      .fatal (.walletCreationFailed 0) := by
  simp only [runPhases, validate_cfgGood, alloc_cfgGood_createFail]
  have hbal : ¬ (createFailEnv.masterBalance <
      (parseFloatJs cfgGood.gasAmount).toQ * cfgGood.numWallets + ([(5:ℚ)]).sum) := by
    show ¬ ((10 : ℚ) < (parseFloatJs "2").toQ * ((1:ℕ) : ℚ) + [(5:ℚ)].sum)
    rw [parse_two]
    norm_num [JsNum.toQ]
  rw [if_neg hbal]
  simp [createLoop, stopNow, createFailEnv, allOkEnv, fundFailEnv]


/-- C5 witness: a run whose wallet creation fails concretely, checked
end to end on a one-wallet ledger holding one leftover wallet. -/
theorem fatal_triggers_cleanup_witness :
    (idleOneCreated.isRunning = false ∧
     (runPhases cfgGood createFailEnv idleOneCreated.led).res =
       .fatal (.walletCreationFailed 0)) ∧
    ((executeOperation cfgGood createFailEnv idleOneCreated).outcome =
       .err (.walletCreationFailed 0) ∧
     (executeOperation cfgGood createFailEnv idleOneCreated).cleanupRan = true ∧
     visitsOf (executeOperation cfgGood createFailEnv idleOneCreated).evs =
       (((runPhases cfgGood createFailEnv idleOneCreated.led).led.wallets.filter
         (fun w => ¬ w.status = .completed)).map (fun w => w.wid)) ∧
     (∀ w ∈ (executeOperation cfgGood createFailEnv idleOneCreated).st.led.wallets,
       w.status = .completed) ∧
     (executeOperation cfgGood createFailEnv idleOneCreated).st.led.wallets.map
         (fun w => w.wid) =
       (runPhases cfgGood createFailEnv idleOneCreated.led).led.wallets.map
         (fun w => w.wid)) :=
  ⟨⟨rfl, runPhases_createFail⟩,
   fatal_triggers_cleanup cfgGood createFailEnv idleOneCreated (.walletCreationFailed 0)
     rfl runPhases_createFail⟩

theorem exec_fatal_pre_create (cfg : AppConfig) (env : Env) (s : MState) (e : ErrKind)
    (evs : List Ev) (chk : ℕ)
    (hrun : s.isRunning = false)
    (hpo : runPhases cfg env s.led = ⟨s.led, evs, chk, .fatal e⟩)
    (hsw : savedWalletsOf evs = []) :
    (executeOperation cfg env s).outcome = .err e ∧
    (executeOperation cfg env s).cleanupRan = true ∧
    savedWalletsOf (executeOperation cfg env s).evs = [] ∧
    (executeOperation cfg env s).st.led.wallets.map (fun w => w.wid) =
      s.led.wallets.map (fun w => w.wid) ∧
    (∀ w ∈ (executeOperation cfg env s).st.led.wallets, w.status = .completed) := by
  have hout : executeOperation cfg env s =
      ⟨.err e, ⟨false, (cleanupAndConsolidateFunds cfg env.cl s.led).1⟩, true,
        evs ++ (cleanupAndConsolidateFunds cfg env.cl s.led).2⟩ := by
    simp only [executeOperation, hrun, Bool.false_eq_true, if_false]
    rw [hpo]
  rw [hout]
  refine ⟨rfl, rfl, ?_, ?_, ?_⟩
  · show savedWalletsOf (evs ++ (cleanupAndConsolidateFunds cfg env.cl s.led).2) = _
    simp only [savedWalletsOf, List.filterMap_append]
    show savedWalletsOf evs ++ savedWalletsOf (cleanupAndConsolidateFunds cfg env.cl s.led).2 = _
    rw [hsw]
    show [] ++ savedWalletsOf (cleanupLoop env.cl _ s.led.wallets.enum ⟨s.led, [], 0⟩).evs = []
    rw [cleanupLoop_savedWallets]
    rfl
  · exact cleanup_wids_eq cfg env.cl s.led
  · exact cleanup_completes_all cfg env.cl s.led

/-- C3 (amended): an invalid configuration, an allocation-planner error
or an insufficient master balance makes executeOperation surface that
error to the caller before any wallet is created (no savedWallet event,
wallet ids unchanged) — but the cleanup-and-consolidate sweep does run
on the pre-existing ledger, marking every leftover wallet completed. -/
theorem config_error_runs_cleanup_amended (cfg : AppConfig) (env : Env) (s : MState)
    (e : ErrKind)
    (hrun : s.isRunning = false)
    (hpre : validateConfig cfg = .error e ∨
      (validateConfig cfg = .ok () ∧
        generateRandomAllocations cfg.numWallets
          (env.masterBalance - (parseFloatJs cfg.gasAmount).toQ * cfg.numWallets)
          (parseFloatJs cfg.minPurchaseAmount).toQ
          (parseFloatJs cfg.maxPurchaseAmount).toQ env.draws = .error e) ∨
      (validateConfig cfg = .ok () ∧ e = .insufficientBalance ∧
        ∃ allocs warned,
          generateRandomAllocations cfg.numWallets
            (env.masterBalance - (parseFloatJs cfg.gasAmount).toQ * cfg.numWallets)
            (parseFloatJs cfg.minPurchaseAmount).toQ
            (parseFloatJs cfg.maxPurchaseAmount).toQ env.draws = .ok (allocs, warned) ∧
          env.masterBalance <
            (parseFloatJs cfg.gasAmount).toQ * cfg.numWallets + allocs.sum)) :
    (executeOperation cfg env s).outcome = .err e ∧
    (executeOperation cfg env s).cleanupRan = true ∧
    savedWalletsOf (executeOperation cfg env s).evs = [] ∧
    (executeOperation cfg env s).st.led.wallets.map (fun w => w.wid) =
      s.led.wallets.map (fun w => w.wid) ∧
    (∀ w ∈ (executeOperation cfg env s).st.led.wallets, w.status = .completed) := by
  rcases hpre with hv | ⟨hv, halloc⟩ | ⟨hv, he, allocs, warned, halloc, hbal⟩
  · exact exec_fatal_pre_create cfg env s e [] 0 hrun
      (by simp only [runPhases, hv]) rfl
  · exact exec_fatal_pre_create cfg env s e [] 0 hrun
      (by simp only [runPhases, hv, halloc]) rfl
  · refine exec_fatal_pre_create cfg env s e
      (if warned = true then [Ev.excessWarn] else []) 0 hrun ?_ ?_
    · simp only [runPhases, hv, halloc]
      rw [if_pos hbal, he]
    · cases warned <;> rfl


/-- C7: when the phases end in stopped, executeOperation returns ok
without the cleanup sweep and with the ledger exactly as the phases left
it; a stop flag raised before the first check makes the run stop before
creating any wallet, leaving the ledger untouched; and a full undisturbed
run reads the stop flag once per wallet per loop plus once per phase
boundary, 4 n + 3 checks in all. -/
theorem stop_returns_early_no_cleanup :
    (∀ (cfg : AppConfig) (env : Env) (s : MState),
      s.isRunning = false →
      (runPhases cfg env s.led).res = .stopped →
      (executeOperation cfg env s).outcome = .ok ∧
      (executeOperation cfg env s).cleanupRan = false ∧
      (executeOperation cfg env s).st.led = (runPhases cfg env s.led).led) ∧
    (∀ (cfg : AppConfig) (env : Env) (led : Ledger) (allocs : List ℚ) (warned : Bool),
      validateConfig cfg = .ok () →
      generateRandomAllocations cfg.numWallets
        (env.masterBalance - (parseFloatJs cfg.gasAmount).toQ * cfg.numWallets)
        (parseFloatJs cfg.minPurchaseAmount).toQ
        (parseFloatJs cfg.maxPurchaseAmount).toQ env.draws = .ok (allocs, warned) →
      ¬ (env.masterBalance <
        (parseFloatJs cfg.gasAmount).toQ * cfg.numWallets + allocs.sum) →
      env.stopAt = some 0 →
      (runPhases cfg env led).res = .stopped ∧
      savedWalletsOf (runPhases cfg env led).evs = [] ∧
      (runPhases cfg env led).led = led) ∧
    (∀ (cfg : AppConfig) (env : Env) (led : Ledger) (allocs : List ℚ) (warned : Bool),
      validateConfig cfg = .ok () →
      generateRandomAllocations cfg.numWallets
        (env.masterBalance - (parseFloatJs cfg.gasAmount).toQ * cfg.numWallets)
        (parseFloatJs cfg.minPurchaseAmount).toQ
        (parseFloatJs cfg.maxPurchaseAmount).toQ env.draws = .ok (allocs, warned) →
      ¬ (env.masterBalance <
        (parseFloatJs cfg.gasAmount).toQ * cfg.numWallets + allocs.sum) →
      env.stopAt = none →
      (∀ i, env.createOk i = true) →
      (runPhases cfg env led).chk = 4 * cfg.numWallets + 3) := by
  refine ⟨?_, ?_, ?_⟩
  · intro cfg env s hrun hstopres
    have hout : executeOperation cfg env s =
        ⟨.ok, ⟨false, (runPhases cfg env s.led).led⟩, false, (runPhases cfg env s.led).evs⟩ := by
      simp only [executeOperation, hrun, Bool.false_eq_true, if_false]
      rw [hstopres]
    rw [hout]
    exact ⟨rfl, rfl, rfl⟩
  · intro cfg env led allocs warned hv halloc hbal hstop0
    have hstopNow : ∀ c, stopNow env c = true := by
      intro c
      simp [stopNow, hstop0]
    have hcl : ∀ (rs : RS),
        createLoop env allocs (List.range cfg.numWallets) rs [] =
          (if List.range cfg.numWallets = [] then (rs, .ok [])
           else ({ rs with chk := rs.chk + 1 }, .ok [])) := by
      intro rs
      cases hr : List.range cfg.numWallets with
      | nil => simp [createLoop]
      | cons a l =>
        simp [createLoop, hstopNow]
    simp only [runPhases, hv, halloc]
    rw [if_neg hbal, hcl]
    by_cases hn : List.range cfg.numWallets = []
    · rw [if_pos hn]
      simp only [hstopNow, if_true]
      refine ⟨?_, ?_, ?_⟩ <;>
        first
          | trivial
          | (cases warned <;> rfl)
    · rw [if_neg hn]
      simp only [hstopNow, if_true]
      refine ⟨?_, ?_, ?_⟩ <;>
        first
          | trivial
          | (cases warned <;> rfl)
  · intro cfg env led allocs warned hv halloc hbal hstop hok
    rw [runPhases_full cfg env led allocs warned hv halloc hbal hstop hok]
    show (transferLoop env _ _ _).chk = _
    rw [transferLoop_chk env _ hstop]
    show (swapLoop env _ _ _).chk + 1 + _ = _
    rw [swapLoop_chk env _ hstop]
    show (fundLoop env _ _ _).chk + 1 + _ + 1 + _ = _
    rw [fundLoop_chk env _ hstop]
    simp only [List.length_map, List.length_range]
    omega


theorem alloc_cfgGood_eval (env : Env) (hmb : env.masterBalance = 10)
    (hdr : env.draws = fun _ => 0) :
    generateRandomAllocations cfgGood.numWallets
      (env.masterBalance - (parseFloatJs cfgGood.gasAmount).toQ * cfgGood.numWallets)
      (parseFloatJs cfgGood.minPurchaseAmount).toQ
      (parseFloatJs cfgGood.maxPurchaseAmount).toQ env.draws = .ok ([5], true) := by
  rw [hmb, hdr]
  show generateRandomAllocations 1 ((10:ℚ) - (parseFloatJs "2").toQ * ((1:ℕ) : ℚ))
    (parseFloatJs "3").toQ (parseFloatJs "5").toQ (fun _ => 0) = _
  rw [parse_two, parse_three, parse_five]
  norm_num [generateRandomAllocations, allocAdds, JsNum.toQ]

theorem bal_cfgGood_eval (env : Env) (hmb : env.masterBalance = 10) :
    ¬ (env.masterBalance <
      (parseFloatJs cfgGood.gasAmount).toQ * cfgGood.numWallets + ([(5:ℚ)]).sum) := by
  rw [hmb]
  show ¬ ((10:ℚ) < (parseFloatJs "2").toQ * ((1:ℕ) : ℚ) + [(5:ℚ)].sum)
  rw [parse_two]
  norm_num [JsNum.toQ]

/-- C7 witness: the stop theorem applied to a concrete one-wallet
configuration with the flag raised at the start, plus the check count of
the undisturbed run. -/
theorem stop_returns_early_no_cleanup_witness :
    ((validateConfig cfgGood = .ok () ∧ stopEnv.stopAt = some 0 ∧
        idleEmpty.isRunning = false) ∧
      (runPhases cfgGood stopEnv idleEmpty.led).res = .stopped ∧
      savedWalletsOf (runPhases cfgGood stopEnv idleEmpty.led).evs = [] ∧
      (executeOperation cfgGood stopEnv idleEmpty).outcome = .ok ∧
      (executeOperation cfgGood stopEnv idleEmpty).cleanupRan = false) ∧
    ((allOkEnv.stopAt = none) ∧
      (runPhases cfgGood allOkEnv emptyLedger).chk = 4 * cfgGood.numWallets + 3) := by
  have halloc := alloc_cfgGood_eval stopEnv rfl rfl
  have hbal := bal_cfgGood_eval stopEnv rfl
  have hstopped := (stop_returns_early_no_cleanup).2.1 cfgGood stopEnv idleEmpty.led
    [5] true validate_cfgGood halloc hbal rfl
  have hmain := (stop_returns_early_no_cleanup).1 cfgGood stopEnv idleEmpty rfl hstopped.1
  have halloc2 := alloc_cfgGood_eval allOkEnv rfl rfl
  have hbal2 := bal_cfgGood_eval allOkEnv rfl
  have hchk := (stop_returns_early_no_cleanup).2.2 cfgGood allOkEnv emptyLedger
    [5] true validate_cfgGood halloc2 hbal2 rfl (fun i => rfl)
  exact ⟨⟨⟨validate_cfgGood, rfl, rfl⟩, hstopped.1, hstopped.2.1, hmain.1, hmain.2.1⟩,
    ⟨rfl, hchk⟩⟩


theorem effGasPrice_pos (gp : ℚ) (h : 0 ≤ gp) : 0 < effGasPrice gp := by
  unfold effGasPrice
  split
  · norm_num
  · rename_i hne
    exact lt_of_le_of_ne h (Ne.symm hne)

theorem swapAmount_nonpos_of_unfunded (env : Env) (gq : ℚ) (e : WEntry)
    (hf : env.fundOk e.1 = false) (hgp : 0 ≤ env.gasPriceWei) :
    swapAmount env gq e ≤ 0 := by
  unfold swapAmount
  rw [hf]
  simp only [Bool.false_eq_true, if_false]
  have hgpp := effGasPrice_pos env.gasPriceWei hgp
  have hring : 500000 * effGasPrice env.gasPriceWei * 150 / 100 =
      750000 * effGasPrice env.gasPriceWei := by ring
  have hpos : 0 < 500000 * effGasPrice env.gasPriceWei * 150 / 100 := by
    rw [hring]
    nlinarith [hgpp]
  have hw : (0 : ℚ) < weiPerEth := by norm_num [weiPerEth]
  have hneg : (0 - 500000 * effGasPrice env.gasPriceWei * 150 / 100) / weiPerEth < 0 := by
    apply div_neg_of_neg_of_pos _ hw
    linarith
  have hmax : max 0 ((0 - 500000 * effGasPrice env.gasPriceWei * 150 / 100) / weiPerEth) = 0 :=
    max_eq_left (le_of_lt hneg)
  rw [hmax]
  exact min_le_right _ _

theorem range_filter_eq (k : ℕ) :
    ∀ (n : ℕ), k < n → (List.range n).filter (fun j => decide (j = k)) = [k] := by
  intro n
  induction n with
  | zero => intro h; omega
  | succ m ih =>
    intro hk
    rw [List.range_succ, List.filter_append]
    by_cases hkm : k < m
    · rw [ih hkm]
      have hlast : List.filter (fun j => decide (j = k)) [m] = [] := by
        simp only [List.filter_cons, List.filter_nil]
        have : ¬ (m = k) := by omega
        simp [this]
      rw [hlast]
      rfl
    · have hkm2 : k = m := by omega
      subst hkm2
      have hhead : List.filter (fun j => decide (j = k)) (List.range k) = [] := by
        apply List.filter_eq_nil_iff.mpr
        intro a ha
        have : a < k := List.mem_range.mp ha
        simp
        omega
      rw [hhead]
      simp

theorem createdOf_map_savedWallet (f : ℕ → ℕ) :
    ∀ l : List ℕ, createdOf (l.map (fun j => Ev.savedWallet (f j))) = [] := by
  intro l
  induction l with
  | nil => rfl
  | cons a t ih => simp [createdOf, List.filterMap_cons] at ih ⊢

theorem fundedOf_map_savedWallet (f : ℕ → ℕ) :
    ∀ l : List ℕ, fundedOf (l.map (fun j => Ev.savedWallet (f j))) = [] := by
  intro l
  induction l with
  | nil => rfl
  | cons a t ih => simp [fundedOf, List.filterMap_cons] at ih ⊢

theorem swapTouchOf_map_savedWallet (f : ℕ → ℕ) :
    ∀ l : List ℕ, swapTouchOf (l.map (fun j => Ev.savedWallet (f j))) = [] := by
  intro l
  induction l with
  | nil => rfl
  | cons a t ih => simp [swapTouchOf, List.filterMap_cons] at ih ⊢


theorem createdOf_append (a b : List Ev) :
    createdOf (a ++ b) = createdOf a ++ createdOf b := by
  simp [createdOf, List.filterMap_append]

theorem fundedOf_append (a b : List Ev) :
    fundedOf (a ++ b) = fundedOf a ++ fundedOf b := by
  simp [fundedOf, List.filterMap_append]

theorem swapTouchOf_append (a b : List Ev) :
    swapTouchOf (a ++ b) = swapTouchOf a ++ swapTouchOf b := by
  simp [swapTouchOf, List.filterMap_append]

theorem createdOf_warn (b : Bool) :
    createdOf (if b = true then [Ev.excessWarn] else []) = [] := by
  cases b <;> rfl

theorem fundedOf_warn (b : Bool) :
    fundedOf (if b = true then [Ev.excessWarn] else []) = [] := by
  cases b <;> rfl

theorem swapTouchOf_warn (b : Bool) :
    swapTouchOf (if b = true then [Ev.excessWarn] else []) = [] := by
  cases b <;> rfl

/-- C4: in a run where the funding transfer fails exactly for wallet k
and succeeds for the others, the run still completes with outcome ok,
wallet k is the only wallet whose status is set back to created, all the
other wallets reach funded, and the swap phase never touches wallet k —
its zero balance makes the safe swap amount non-positive, so the swap is
skipped. -/
theorem funding_failure_regresses_and_skips (cfg : AppConfig) (env : Env) (s : MState)
    (allocs : List ℚ) (warned : Bool) (k : ℕ)
    (hrun : s.isRunning = false)
    (hv : validateConfig cfg = .ok ())
    (halloc : generateRandomAllocations cfg.numWallets
        (env.masterBalance - (parseFloatJs cfg.gasAmount).toQ * cfg.numWallets)
        (parseFloatJs cfg.minPurchaseAmount).toQ
        (parseFloatJs cfg.maxPurchaseAmount).toQ env.draws = .ok (allocs, warned))
    (hbal : ¬ (env.masterBalance <
        (parseFloatJs cfg.gasAmount).toQ * cfg.numWallets + allocs.sum))
    (hstop : env.stopAt = none)
    (hok : ∀ i, env.createOk i = true)
    (hgp : 0 ≤ env.gasPriceWei)
    (hk : k < cfg.numWallets)
    (hfk : env.fundOk k = false)
    (hfo : ∀ i, ¬ i = k → env.fundOk i = true) :
    (executeOperation cfg env s).outcome = .ok ∧
    createdOf (executeOperation cfg env s).evs = [s.led.nextWid + k] ∧
    fundedOf (executeOperation cfg env s).evs =
      ((List.range cfg.numWallets).filter (fun i => ¬ i = k)).map
        (fun i => s.led.nextWid + i) ∧
    (s.led.nextWid + k) ∉ swapTouchOf (executeOperation cfg env s).evs := by
  have hrp := runPhases_full cfg env s.led allocs warned hv halloc hbal hstop hok
  dsimp only at hrp
  have hres : (runPhases cfg env s.led).res = .completed := by rw [hrp]
  have hexec : executeOperation cfg env s =
      ⟨.ok, ⟨false, (runPhases cfg env s.led).led⟩, false, (runPhases cfg env s.led).evs⟩ := by
    simp only [executeOperation, hrun, Bool.false_eq_true, if_false]
    rw [hres]
  refine ⟨by rw [hexec], ?_, ?_, ?_⟩
  · rw [hexec]
    show createdOf (runPhases cfg env s.led).evs = _
    rw [hrp]
    dsimp only
    rw [transferLoop_created]
    dsimp only
    rw [swapLoop_created]
    dsimp only
    rw [fundLoop_created env _ hstop]
    dsimp only
    rw [createdOf_append, createdOf_warn, createdOf_map_savedWallet]
    simp only [List.nil_append]
    rw [List.filter_map, List.map_map]
    have hfc : ∀ j ∈ List.range cfg.numWallets,
        ((fun e : WEntry => decide (¬ env.fundOk e.1 = true)) ∘
          (fun j => (j, s.led.nextWid + j, allocs.getD j 0))) j =
        (fun j => decide (j = k)) j := by
      intro j hj
      by_cases hjk : j = k
      · subst hjk
        simp [Function.comp_apply, hfk]
      · simp [Function.comp_apply, hfo j hjk, hjk]
    rw [List.filter_congr hfc, range_filter_eq k cfg.numWallets hk]
    rfl
  · rw [hexec]
    show fundedOf (runPhases cfg env s.led).evs = _
    rw [hrp]
    dsimp only
    rw [transferLoop_funded]
    dsimp only
    rw [swapLoop_funded]
    dsimp only
    rw [fundLoop_funded env _ hstop]
    dsimp only
    rw [fundedOf_append, fundedOf_warn, fundedOf_map_savedWallet]
    simp only [List.nil_append]
    rw [List.filter_map, List.map_map]
    have hfc : ∀ j ∈ List.range cfg.numWallets,
        ((fun e : WEntry => env.fundOk e.1) ∘
          (fun j => (j, s.led.nextWid + j, allocs.getD j 0))) j =
        (fun j => decide (¬ j = k)) j := by
      intro j hj
      by_cases hjk : j = k
      · subst hjk
        simp [Function.comp_apply, hfk]
      · simp [Function.comp_apply, hfo j hjk, hjk]
    rw [List.filter_congr hfc]
    apply List.map_congr_left
    intro j hj
    rfl
  · rw [hexec]
    show (s.led.nextWid + k) ∉ swapTouchOf (runPhases cfg env s.led).evs
    rw [hrp]
    dsimp only
    rw [transferLoop_swapTouch]
    dsimp only
    intro hmem
    rcases swapLoop_swapTouch_sub env _ _ _ (s.led.nextWid + k) hmem with hin | ⟨e, he, hwid, hatt⟩
    · dsimp only at hin
      rw [fundLoop_swapTouch] at hin
      dsimp only at hin
      rw [swapTouchOf_append, swapTouchOf_warn, swapTouchOf_map_savedWallet] at hin
      simp at hin
    · obtain ⟨j, hj, rfl⟩ := List.mem_map.mp he
      have hjk : j = k := by
        have := hwid
        dsimp only at this
        omega
      subst hjk
      exact hatt (swapAmount_nonpos_of_unfunded env _ _ hfk hgp)


theorem parse_one : parseFloatJs "1" = .val 1 := by
  show JsNum.val (1 * ((1 : ℕ) : ℚ)) = _
  norm_num

theorem validate_cfg3 : validateConfig cfg3 = .ok () := by
  have hrpc : strStartsWith "https://rpc.example" "http" = true := rfl
  have hfal : strFalsy "https://rpc.example" = false := rfl
  simp only [validateConfig, cfg3, cfgGood, parse_one, parse_two, parse_zero,
    hrpc, hfal]
  norm_num [JsNum.jle, JsNum.jgt, JsNum.jlt]

theorem alloc_cfg3 :
    generateRandomAllocations cfg3.numWallets
      (fundFail1Env.masterBalance - (parseFloatJs cfg3.gasAmount).toQ * cfg3.numWallets)
      (parseFloatJs cfg3.minPurchaseAmount).toQ
      (parseFloatJs cfg3.maxPurchaseAmount).toQ fundFail1Env.draws =
      .ok ([1, 1, 2], true) := by
  show generateRandomAllocations 3 ((10:ℚ) - (parseFloatJs "1").toQ * ((3:ℕ) : ℚ))
    (parseFloatJs "1").toQ (parseFloatJs "2").toQ (fun _ => 0) = _
  rw [parse_one, parse_two]
  norm_num [generateRandomAllocations, allocAdds, JsNum.toQ]

theorem bal_cfg3 :
    ¬ (fundFail1Env.masterBalance <
      (parseFloatJs cfg3.gasAmount).toQ * cfg3.numWallets + ([(1:ℚ), 1, 2]).sum) := by
  show ¬ ((10:ℚ) < (parseFloatJs "1").toQ * ((3:ℕ) : ℚ) + [(1:ℚ), 1, 2].sum)
  rw [parse_one]
  norm_num [JsNum.toQ]

/-- C4 witness: a three-wallet run in which only wallet 1's funding
transfer fails, evaluated concretely. -/
theorem funding_failure_regresses_and_skips_witness :
    (idleEmpty.isRunning = false ∧ validateConfig cfg3 = .ok () ∧
      fundFail1Env.fundOk 1 = false ∧ (1 < cfg3.numWallets) ∧
      fundFail1Env.stopAt = none) ∧
    ((executeOperation cfg3 fundFail1Env idleEmpty).outcome = .ok ∧
     createdOf (executeOperation cfg3 fundFail1Env idleEmpty).evs =
       [idleEmpty.led.nextWid + 1] ∧
     fundedOf (executeOperation cfg3 fundFail1Env idleEmpty).evs =
       ((List.range cfg3.numWallets).filter (fun i => ¬ i = 1)).map
         (fun i => idleEmpty.led.nextWid + i) ∧
     (idleEmpty.led.nextWid + 1) ∉
       swapTouchOf (executeOperation cfg3 fundFail1Env idleEmpty).evs) :=
  ⟨⟨rfl, validate_cfg3, rfl, by norm_num [cfg3, cfgGood], rfl⟩,
   funding_failure_regresses_and_skips cfg3 fundFail1Env idleEmpty [1, 1, 2] true 1
     rfl validate_cfg3 alloc_cfg3 bal_cfg3 rfl (fun i => rfl) (le_refl 0)
     (by norm_num [cfg3, cfgGood]) rfl
     (fun i hi => by simp [fundFail1Env, allOkEnv, fundFailEnv, hi])⟩


/-- C3 witness: the amended theorem applied to the bad-token-address
configuration over a ledger holding one leftover created wallet. -/
theorem config_error_runs_cleanup_amended_witness :
    (idleOneCreated.isRunning = false ∧
      validateConfig cfgBadToken = .error .invalidTokenAddress) ∧
    ((executeOperation cfgBadToken fundFailEnv idleOneCreated).outcome =
        .err .invalidTokenAddress ∧
      (executeOperation cfgBadToken fundFailEnv idleOneCreated).cleanupRan = true ∧
      savedWalletsOf (executeOperation cfgBadToken fundFailEnv idleOneCreated).evs = [] ∧
      (executeOperation cfgBadToken fundFailEnv idleOneCreated).st.led.wallets.map
          (fun w => w.wid) =
        idleOneCreated.led.wallets.map (fun w => w.wid) ∧
      (∀ w ∈ (executeOperation cfgBadToken fundFailEnv idleOneCreated).st.led.wallets,
        w.status = .completed)) :=
  have hv : validateConfig cfgBadToken = .error .invalidTokenAddress := by
    simp [validateConfig, cfgBadToken, cfgGood]
  ⟨⟨rfl, hv⟩, config_error_runs_cleanup_amended cfgBadToken fundFailEnv idleOneCreated
    .invalidTokenAddress rfl (Or.inl hv)⟩

/-- C8 witness: both parts applied concretely — a busy state returns
the error unchanged, an idle state ends with the flag cleared. -/
theorem executeOperation_run_flag_witness :
    ((MState.mk true emptyLedger).isRunning = true ∧
      executeOperation cfgGood fundFailEnv ⟨true, emptyLedger⟩ =
        ⟨.errAlreadyRunning, ⟨true, emptyLedger⟩, false, []⟩) ∧
    (idleEmpty.isRunning = false ∧
      isOperationRunning (executeOperation cfgGood fundFailEnv idleEmpty).st = false) :=
  ⟨⟨rfl, (executeOperation_run_flag).1 cfgGood fundFailEnv ⟨true, emptyLedger⟩ rfl⟩,
   ⟨rfl, (executeOperation_run_flag).2 cfgGood fundFailEnv idleEmpty rfl⟩⟩

theorem transferBack_noop (walletId : ℕ) (cfg : AppConfig) (cgl : Option ℕ)
    (env : TBEnv) (led : Ledger) (q : ℚ) (w : WalletRec)
    (hcomp : ∀ r ∈ led.wallets, r.wid = walletId → r.status = .completed)
    (hfound : led.wallets.find? (fun r => r.wid = walletId) = some w)
    (hload : env.loadOk = true)
    (hmk : parseFloatJs cfg.minKeptTokens = .val q) (hq : 0 ≤ q)
    (htok : env.tokBal = 0) (heth : env.ethBalWei = 0) :
    transferBackFromWallet walletId (some cfg) cgl env led =
      ⟨led, [Ev.updatedWallet walletId .completed], false⟩ := by
  have hupd : led.updateWallet walletId .completed = led := by
    show { led with wallets := _ } = led
    have hmap : led.wallets.map
        (fun r => if r.wid = walletId then { r with status := .completed } else r) =
        led.wallets := by
      have h2 : led.wallets.map
          (fun r => if r.wid = walletId then { r with status := .completed } else r) =
          led.wallets.map (fun r => r) := by
        apply List.map_congr_left
        intro r hr
        by_cases hw : r.wid = walletId
        · rw [if_pos hw]
          have hst := hcomp r hr hw
          obtain ⟨rid, rst⟩ := r
          simp only at hst
          rw [hst]
        · rw [if_neg hw]
      rw [h2]
      simp
    rw [hmap]
  unfold transferBackFromWallet
  rw [hfound, hload]
  simp only [Bool.not_true, Bool.false_eq_true, if_false]
  rw [hmk]
  have htokskip : ¬ ((1 : ℚ) / 1000000 < env.tokBal - (JsNum.val q).toQ) := by
    rw [htok]
    show ¬ ((1 : ℚ) / 1000000 < 0 - q)
    intro hc
    have : (0:ℚ) < 1 / 1000000 := by norm_num
    linarith
  have hethskip : ¬ ((10000000000000 : ℚ) < env.ethBalWei) := by
    rw [heth]
    norm_num
  rw [if_neg htokskip, if_neg hethskip]
  rw [hupd]
  rfl

/-- C9: calling transferBackFromWallet a second time on a wallet already
completed with zero token and ETH balances is a no-op: the ledger is
unchanged, no transaction record is created, no savedTx or submit event
occurs, and the call does not throw — the dust thresholds skip both
transfers. -/
theorem transferBack_second_call_noop (walletId : ℕ) (cfg : AppConfig) (cgl : Option ℕ)
    (env : TBEnv) (led : Ledger) (q : ℚ) (w : WalletRec)
    (hcomp : ∀ r ∈ led.wallets, r.wid = walletId → r.status = .completed)
    (hfound : led.wallets.find? (fun r => r.wid = walletId) = some w)
    (hload : env.loadOk = true)
    (hmk : parseFloatJs cfg.minKeptTokens = .val q) (hq : 0 ≤ q)
    (htok : env.tokBal = 0) (heth : env.ethBalWei = 0) :
    (transferBackFromWallet walletId (some cfg) cgl env
        (transferBackFromWallet walletId (some cfg) cgl env led).led).led =
      (transferBackFromWallet walletId (some cfg) cgl env led).led ∧
    (transferBackFromWallet walletId (some cfg) cgl env
        (transferBackFromWallet walletId (some cfg) cgl env led).led).led.txs = led.txs ∧
    (∀ id t w2, Ev.savedTx id t w2 ∉ (transferBackFromWallet walletId (some cfg) cgl env
        (transferBackFromWallet walletId (some cfg) cgl env led).led).evs) ∧
    (∀ t w2, Ev.submit t w2 ∉ (transferBackFromWallet walletId (some cfg) cgl env
        (transferBackFromWallet walletId (some cfg) cgl env led).led).evs) ∧
    (transferBackFromWallet walletId (some cfg) cgl env
        (transferBackFromWallet walletId (some cfg) cgl env led).led).threw = false := by
  have h1 := transferBack_noop walletId cfg cgl env led q w hcomp hfound hload hmk hq htok heth
  rw [h1]
  show (transferBackFromWallet walletId (some cfg) cgl env led).led = led ∧ _ ∧ _ ∧ _ ∧ _
  rw [h1]
  refine ⟨rfl, rfl, ?_, ?_, rfl⟩
  · intro id t w2 hmem
    simp at hmem
  · intro t w2 hmem
    simp at hmem


theorem fundStep_txs (env : Env) (gq : ℚ) (e : WEntry) (rs : RS) :
    (fundStep env gq e rs).led.txs =
      (if env.fundOk e.1 then
        rs.led.txs.map (fun r =>
          if r.txid = rs.led.nextTxId then { r with tstatus := .success } else r)
       else rs.led.txs) ++
      [⟨rs.led.nextTxId, .fund_transfer, e.2.1, gq + e.2.2,
        if env.fundOk e.1 then .success else .pending⟩] := by
  by_cases h : env.fundOk e.1 <;>
    simp [fundStep, h, Ledger.saveTx, Ledger.updateTx, Ledger.updateWallet,
      List.map_append]

theorem swapStep_txs (env : Env) (gq : ℚ) (e : WEntry) (rs : RS) :
    (swapStep env gq e rs).led.txs =
      (if swapAmount env gq e ≤ 0 then rs.led.txs
       else
        (if env.swapOk e.1 then
          rs.led.txs.map (fun r =>
            if r.txid = rs.led.nextTxId then { r with tstatus := .success } else r)
         else rs.led.txs) ++
        [⟨rs.led.nextTxId, .token_swap, e.2.1, swapAmount env gq e,
          if env.swapOk e.1 then .success else .pending⟩]) := by
  by_cases h : swapAmount env gq e ≤ 0
  · simp [swapStep, h]
  · by_cases h2 : env.swapOk e.1 <;>
      simp [swapStep, h, h2, Ledger.saveTx, Ledger.updateTx, Ledger.updateWallet,
        List.map_append]

theorem transferStep_txs (env : Env) (mkq : ℚ) (e : WEntry) (rs : RS) :
    (transferStep env mkq e rs).led.txs =
      (let tokTxs :=
        if 1 / 1000000 < env.tokenBal e.1 - mkq then
          rs.led.txs.map (fun r =>
            if r.txid = rs.led.nextTxId then
              { r with tstatus := if env.tokOk e.1 then .success else .failed }
            else r) ++
          [⟨rs.led.nextTxId, .token_transfer, e.2.1, env.tokenBal e.1 - mkq,
            if env.tokOk e.1 then .success else .failed⟩]
        else rs.led.txs
       let t1 := rs.led.nextTxId + (if 1 / 1000000 < env.tokenBal e.1 - mkq then 1 else 0)
       if 10000000000000 < env.ethBalWei e.1 ∧
           0 < env.ethBalWei e.1 - 21000 * effGasPrice env.gasPriceWei * 2 then
         (if env.ethOk e.1 then
           tokTxs.map (fun r =>
             if r.txid = t1 then { r with tstatus := .success } else r)
          else tokTxs) ++
         [⟨t1, .eth_transfer, e.2.1,
           (env.ethBalWei e.1 - 21000 * effGasPrice env.gasPriceWei * 2) / weiPerEth,
           if env.ethOk e.1 then .success else .pending⟩]
       else tokTxs) := by
  by_cases h1 : (1000000⁻¹ : ℚ) < env.tokenBal e.1 - mkq <;>
    by_cases h2 : 10000000000000 < env.ethBalWei e.1 <;>
      by_cases h3 : 0 < env.ethBalWei e.1 - 21000 * effGasPrice env.gasPriceWei * 2 <;>
        by_cases h4 : env.tokOk e.1 <;>
          by_cases h5 : env.ethOk e.1 <;>
            simp [transferStep, h1, h2, h3, h4, h5, Ledger.saveTx, Ledger.updateTx,
              Ledger.updateWallet, List.map_append]

theorem cleanupStep_txs (ce : CleanupEnv) (mkq : ℚ) (idx : ℕ) (w : WalletRec) (rs : RS) :
    (cleanupStep ce mkq idx w rs).led.txs =
      (if w.status = .completed then rs.led.txs
       else
        let tokTxs :=
          if 0 < ce.tokBal idx ∧ 0 < ce.tokBal idx - mkq then
            (if ce.tokOk idx then
              rs.led.txs.map (fun r =>
                if r.txid = rs.led.nextTxId then { r with tstatus := .success } else r)
             else rs.led.txs) ++
            [⟨rs.led.nextTxId, .token_transfer, w.wid, ce.tokBal idx - mkq,
              if ce.tokOk idx then .success else .pending⟩]
          else rs.led.txs
        let t1 := rs.led.nextTxId +
          (if 0 < ce.tokBal idx ∧ 0 < ce.tokBal idx - mkq then 1 else 0)
        if 1 / 10000 < ce.ethBal idx - 1 / 10000 then
          (if ce.ethOk idx then
            tokTxs.map (fun r =>
              if r.txid = t1 then { r with tstatus := .success } else r)
           else tokTxs) ++
          [⟨t1, .eth_transfer, w.wid, ce.ethBal idx - 1 / 10000,
            if ce.ethOk idx then .success else .pending⟩]
        else tokTxs) := by
  by_cases h0 : w.status = .completed
  · simp [cleanupStep, h0]
  · by_cases h1 : 0 < ce.tokBal idx <;>
      by_cases h2 : 0 < ce.tokBal idx - mkq <;>
        by_cases h3 : (10000⁻¹ : ℚ) < ce.ethBal idx - 10000⁻¹ <;>
          by_cases h4 : ce.tokOk idx <;>
            by_cases h5 : ce.ethOk idx <;>
              simp [cleanupStep, h0, h1, h2, h3, h4, h5, Ledger.saveTx, Ledger.updateTx,
                Ledger.updateWallet, List.map_append]


theorem submitsCoveredAux_append :
    ∀ (a b : List Ev) (seen : List (TxType × ℕ)),
      submitsCoveredAux (a ++ b) seen =
        (submitsCoveredAux a seen && submitsCoveredAux b (seenAfter a seen)) := by
  intro a
  induction a with
  | nil => intro b seen; rfl
  | cons e rest ih =>
    intro b seen
    cases e with
    | savedTx id t w => simp [submitsCoveredAux, seenAfter, ih]
    | submit t w => simp [submitsCoveredAux, seenAfter, ih, Bool.and_assoc]
    | savedWallet w => simp [submitsCoveredAux, seenAfter, ih]
    | updatedWallet w st => simp [submitsCoveredAux, seenAfter, ih]
    | updatedTx id st => simp [submitsCoveredAux, seenAfter, ih]
    | cleanupVisit w => simp [submitsCoveredAux, seenAfter, ih]
    | excessWarn => simp [submitsCoveredAux, seenAfter, ih]

theorem fundStep_covered (env : Env) (gq : ℚ) (e : WEntry) (rs : RS)
    (seen : List (TxType × ℕ)) :
    submitsCoveredAux (fundStep env gq e rs).evs seen =
      submitsCoveredAux rs.evs seen := by
  rw [fundStep_evs, submitsCoveredAux_append]
  have hblk : ∀ s2, submitsCoveredAux
      ([.savedTx rs.led.nextTxId .fund_transfer e.2.1, .submit .fund_transfer e.2.1] ++
       (if env.fundOk e.1 then
          [.updatedTx rs.led.nextTxId .success, .updatedWallet e.2.1 .funded]
        else [.updatedWallet e.2.1 .created])) s2 = true := by
    intro s2
    by_cases h : env.fundOk e.1 <;> simp [h, submitsCoveredAux, List.mem_cons]
  rw [hblk]
  simp

theorem swapStep_covered (env : Env) (gq : ℚ) (e : WEntry) (rs : RS)
    (seen : List (TxType × ℕ)) :
    submitsCoveredAux (swapStep env gq e rs).evs seen =
      submitsCoveredAux rs.evs seen := by
  rw [swapStep_evs, submitsCoveredAux_append]
  have hblk : ∀ s2, submitsCoveredAux
      (if swapAmount env gq e ≤ 0 then []
       else [.savedTx rs.led.nextTxId .token_swap e.2.1, .submit .token_swap e.2.1] ++
         (if env.swapOk e.1 then
            [.updatedTx rs.led.nextTxId .success, .updatedWallet e.2.1 .swapped]
          else [])) s2 = true := by
    intro s2
    by_cases h : swapAmount env gq e ≤ 0
    · simp [h, submitsCoveredAux]
    · by_cases h2 : env.swapOk e.1 <;> simp [h, h2, submitsCoveredAux, List.mem_cons]
  rw [hblk]
  simp

theorem transferStep_covered (env : Env) (mkq : ℚ) (e : WEntry) (rs : RS)
    (seen : List (TxType × ℕ)) :
    submitsCoveredAux (transferStep env mkq e rs).evs seen =
      submitsCoveredAux rs.evs seen := by
  rw [transferStep_evs, submitsCoveredAux_append]
  have hblk : ∀ s2, submitsCoveredAux
      ((if 1 / 1000000 < env.tokenBal e.1 - mkq then
          [.savedTx rs.led.nextTxId .token_transfer e.2.1, .submit .token_transfer e.2.1,
           .updatedTx rs.led.nextTxId (if env.tokOk e.1 then .success else .failed)]
        else []) ++
       (if 10000000000000 < env.ethBalWei e.1 ∧
            0 < env.ethBalWei e.1 - 21000 * effGasPrice env.gasPriceWei * 2 then
          [.savedTx (rs.led.nextTxId + (if 1 / 1000000 < env.tokenBal e.1 - mkq then 1 else 0))
             .eth_transfer e.2.1, .submit .eth_transfer e.2.1] ++
          (if env.ethOk e.1 then
             [.updatedTx (rs.led.nextTxId +
               (if 1 / 1000000 < env.tokenBal e.1 - mkq then 1 else 0)) .success]
           else [])
        else []) ++
       [.updatedWallet e.2.1 .completed]) s2 = true := by
    intro s2
    by_cases h1 : (1000000⁻¹ : ℚ) < env.tokenBal e.1 - mkq <;>
      by_cases h2 : 10000000000000 < env.ethBalWei e.1 <;>
        by_cases h3 : 0 < env.ethBalWei e.1 - 21000 * effGasPrice env.gasPriceWei * 2 <;>
          by_cases h5 : env.ethOk e.1 <;>
            simp [h1, h2, h3, h5, submitsCoveredAux, List.mem_cons]
  rw [hblk]
  simp

theorem cleanupStep_covered (ce : CleanupEnv) (mkq : ℚ) (idx : ℕ) (w : WalletRec)
    (rs : RS) (seen : List (TxType × ℕ)) :
    submitsCoveredAux (cleanupStep ce mkq idx w rs).evs seen =
      submitsCoveredAux rs.evs seen := by
  rw [cleanupStep_evs, submitsCoveredAux_append]
  have hblk : ∀ s2, submitsCoveredAux
      (if w.status = .completed then [] else
        [.cleanupVisit w.wid] ++
        (if 0 < ce.tokBal idx ∧ 0 < ce.tokBal idx - mkq then
          [.savedTx rs.led.nextTxId .token_transfer w.wid, .submit .token_transfer w.wid] ++
          (if ce.tokOk idx then [.updatedTx rs.led.nextTxId .success] else [])
         else []) ++
        (if 1 / 10000 < ce.ethBal idx - 1 / 10000 then
          [.savedTx (rs.led.nextTxId +
             (if 0 < ce.tokBal idx ∧ 0 < ce.tokBal idx - mkq then 1 else 0))
             .eth_transfer w.wid, .submit .eth_transfer w.wid] ++
          (if ce.ethOk idx then
             [.updatedTx (rs.led.nextTxId +
               (if 0 < ce.tokBal idx ∧ 0 < ce.tokBal idx - mkq then 1 else 0)) .success]
           else [])
         else []) ++
        [.updatedWallet w.wid .completed]) s2 = true := by
    intro s2
    by_cases h0 : w.status = .completed
    · simp [h0, submitsCoveredAux]
    · by_cases h1 : 0 < ce.tokBal idx <;>
        by_cases h2 : 0 < ce.tokBal idx - mkq <;>
          by_cases h3 : (10000⁻¹ : ℚ) < ce.ethBal idx - 10000⁻¹ <;>
            by_cases h4 : ce.tokOk idx <;>
              by_cases h5 : ce.ethOk idx <;>
                simp [h0, h1, h2, h3, h4, h5, submitsCoveredAux, List.mem_cons]
  rw [hblk]
  simp


theorem fundLoop_covered (env : Env) (gq : ℚ) :
    ∀ (ws : List WEntry) (rs : RS) (seen : List (TxType × ℕ)),
      submitsCoveredAux (fundLoop env gq ws rs).evs seen =
        submitsCoveredAux rs.evs seen := by
  intro ws
  induction ws with
  | nil => intro rs seen; rfl
  | cons e rest ih =>
    intro rs seen
    by_cases hstop : stopNow env rs.chk = true
    · simp [fundLoop, hstop]
    · simp only [fundLoop, hstop, if_false, Bool.false_eq_true]
      rw [ih, fundStep_covered]

theorem swapLoop_covered (env : Env) (gq : ℚ) :
    ∀ (ws : List WEntry) (rs : RS) (seen : List (TxType × ℕ)),
      submitsCoveredAux (swapLoop env gq ws rs).evs seen =
        submitsCoveredAux rs.evs seen := by
  intro ws
  induction ws with
  | nil => intro rs seen; rfl
  | cons e rest ih =>
    intro rs seen
    by_cases hstop : stopNow env rs.chk = true
    · simp [swapLoop, hstop]
    · simp only [swapLoop, hstop, if_false, Bool.false_eq_true]
      rw [ih, swapStep_covered]

theorem transferLoop_covered (env : Env) (mkq : ℚ) :
    ∀ (ws : List WEntry) (rs : RS) (seen : List (TxType × ℕ)),
      submitsCoveredAux (transferLoop env mkq ws rs).evs seen =
        submitsCoveredAux rs.evs seen := by
  intro ws
  induction ws with
  | nil => intro rs seen; rfl
  | cons e rest ih =>
    intro rs seen
    by_cases hstop : stopNow env rs.chk = true
    · simp [transferLoop, hstop]
    · simp only [transferLoop, hstop, if_false, Bool.false_eq_true]
      rw [ih, transferStep_covered]

theorem cleanupLoop_covered (ce : CleanupEnv) (mkq : ℚ) :
    ∀ (entries : List (ℕ × WalletRec)) (rs : RS) (seen : List (TxType × ℕ)),
      submitsCoveredAux (cleanupLoop ce mkq entries rs).evs seen =
        submitsCoveredAux rs.evs seen := by
  intro entries
  induction entries with
  | nil => intro rs seen; rfl
  | cons q rest ih =>
    intro rs seen
    show submitsCoveredAux (cleanupLoop ce mkq rest (cleanupStep ce mkq q.1 q.2 rs)).evs seen = _
    rw [ih, cleanupStep_covered]

theorem createLoop_covered (env : Env) (allocs : List ℚ) :
    ∀ (idxs : List ℕ) (rs : RS) (acc : List WEntry) (seen : List (TxType × ℕ)),
      submitsCoveredAux (createLoop env allocs idxs rs acc).1.evs seen =
        submitsCoveredAux rs.evs seen := by
  intro idxs
  induction idxs with
  | nil => intro rs acc seen; rfl
  | cons i rest ih =>
    intro rs acc seen
    by_cases hstop : stopNow env rs.chk = true
    · simp [createLoop, hstop]
    · by_cases hok : env.createOk i = true
      · simp only [createLoop, hstop, hok, if_false, if_true, Bool.false_eq_true]
        rw [ih]
        rw [submitsCoveredAux_append]
        have hblk : ∀ s2, submitsCoveredAux [Ev.savedWallet (rs.led.saveWallet .created).2] s2
            = true := by
          intro s2
          rfl
        rw [hblk]
        simp
      · simp [createLoop, hstop, hok]

theorem evs0_covered (b : Bool) (seen : List (TxType × ℕ)) :
    submitsCoveredAux (if b = true then [Ev.excessWarn] else []) seen = true := by
  cases b <;> rfl

theorem runPhases_covered (cfg : AppConfig) (env : Env) (led : Ledger)
    (seen : List (TxType × ℕ)) :
    submitsCoveredAux (runPhases cfg env led).evs seen = true := by
  unfold runPhases
  split
  · rfl
  · dsimp only
    split
    · rfl
    · rename_i allocs warned heqA
      split
      · exact evs0_covered _ _
      · split
        · rename_i rs1 e heq
          have hc := createLoop_covered env allocs (List.range cfg.numWallets)
            ⟨led, if warned = true then [Ev.excessWarn] else [], 0⟩ [] seen
          rw [heq] at hc
          rw [show (rs1, Except.error (ε := ErrKind) (α := List WEntry) e).1 = rs1 from rfl] at hc
          rw [hc]
          exact evs0_covered _ _
        · rename_i rs1 ws heq
          have hc := createLoop_covered env allocs (List.range cfg.numWallets)
            ⟨led, if warned = true then [Ev.excessWarn] else [], 0⟩ [] seen
          rw [heq] at hc
          rw [show (rs1, Except.ok (ε := ErrKind) ws).1 = rs1 from rfl] at hc
          split
          · rw [hc]
            exact evs0_covered _ _
          · split
            · rw [fundLoop_covered env (parseFloatJs cfg.gasAmount).toQ ws
                ⟨rs1.led, rs1.evs, rs1.chk + 1⟩ seen]
              rw [show (⟨rs1.led, rs1.evs, rs1.chk + 1⟩ : RS).evs = rs1.evs from rfl, hc]
              exact evs0_covered _ _
            · split
              · rw [swapLoop_covered env (parseFloatJs cfg.gasAmount).toQ ws _ seen]
                rw [show ∀ rs : RS, (⟨rs.led, rs.evs, rs.chk + 1⟩ : RS).evs = rs.evs
                  from fun rs => rfl]
                rw [fundLoop_covered env (parseFloatJs cfg.gasAmount).toQ ws
                  ⟨rs1.led, rs1.evs, rs1.chk + 1⟩ seen]
                rw [show (⟨rs1.led, rs1.evs, rs1.chk + 1⟩ : RS).evs = rs1.evs from rfl, hc]
                exact evs0_covered _ _
              · rw [transferLoop_covered env (parseFloatJs cfg.minKeptTokens).toQ ws _ seen]
                rw [show ∀ rs : RS, (⟨rs.led, rs.evs, rs.chk + 1⟩ : RS).evs = rs.evs
                  from fun rs => rfl]
                rw [swapLoop_covered env (parseFloatJs cfg.gasAmount).toQ ws _ seen]
                rw [show ∀ rs : RS, (⟨rs.led, rs.evs, rs.chk + 1⟩ : RS).evs = rs.evs
                  from fun rs => rfl]
                rw [fundLoop_covered env (parseFloatJs cfg.gasAmount).toQ ws
                  ⟨rs1.led, rs1.evs, rs1.chk + 1⟩ seen]
                rw [show (⟨rs1.led, rs1.evs, rs1.chk + 1⟩ : RS).evs = rs1.evs from rfl, hc]
                exact evs0_covered _ _

theorem executeOperation_covered (cfg : AppConfig) (env : Env) (s : MState) :
    submitsCovered (executeOperation cfg env s).evs = true := by
  unfold executeOperation submitsCovered
  split
  · rfl
  · dsimp only
    split
    · rename_i e heq
      rw [submitsCoveredAux_append, runPhases_covered]
      show (true && _) = true
      rw [Bool.true_and]
      show submitsCoveredAux (cleanupLoop env.cl _ _ ⟨_, [], 0⟩).evs _ = true
      rw [cleanupLoop_covered]
      rfl
    · rw [show submitsCoveredAux (runPhases cfg env s.led).evs [] = true
        from runPhases_covered cfg env s.led []]
    · rw [show submitsCoveredAux (runPhases cfg env s.led).evs [] = true
        from runPhases_covered cfg env s.led []]


theorem runPhases_fundFail_eval :
    (runPhases cfgGood fundFailEnv emptyLedger).res = PhaseRes.completed ∧
    (runPhases cfgGood fundFailEnv emptyLedger).led.txs =
      [⟨0, TxType.fund_transfer, 0, 7, TxStatus.pending⟩] := by
  have hrp := runPhases_full cfgGood fundFailEnv emptyLedger [5] true validate_cfgGood
    (alloc_cfgGood_eval fundFailEnv rfl rfl) (bal_cfgGood_eval fundFailEnv rfl) rfl
    (fun i => rfl)
  rw [hrp]
  dsimp only
  norm_num [cfgGood, parse_two, parse_zero, JsNum.toQ, List.range_succ,
    fundLoop, fundStep, swapLoop, swapStep, swapAmount, transferLoop, transferStep,
    stopNow, fundFailEnv, allOkEnv, effGasPrice, weiPerEth,
    Ledger.saveTx, Ledger.updateTx, Ledger.updateWallet, emptyLedger]

/-- C6 counterexample: with a well-formed one-wallet configuration in which
the funding transfer throws, the run completes with outcome ok yet the
fund-transfer record is left with status pending in the final ledger — it is
never updated to failed, contradicting the claim that a failed on-chain
action updates its record to failed. -/
theorem tx_lifecycle_cex :
    fundFailEnv.fundOk 0 = false ∧
    (executeOperation cfgGood fundFailEnv idleEmpty).outcome = .ok ∧
    (executeOperation cfgGood fundFailEnv idleEmpty).st.led.txs =
      [⟨0, TxType.fund_transfer, 0, 7, TxStatus.pending⟩] := by
  have hrun := runPhases_fundFail_eval
  have hE : executeOperation cfgGood fundFailEnv idleEmpty =
      ⟨.ok, ⟨false, (runPhases cfgGood fundFailEnv idleEmpty.led).led⟩, false,
        (runPhases cfgGood fundFailEnv idleEmpty.led).evs⟩ := by
    unfold executeOperation
    rw [if_neg (by simp [idleEmpty])]
    dsimp only
    split <;> rename_i heq <;>
      first
        | rfl
        | (rw [show idleEmpty.led = emptyLedger from rfl] at heq
           rw [hrun.1] at heq
           simp at heq)
  refine ⟨rfl, ?_, ?_⟩
  · rw [hE]
  · rw [hE]
    show (runPhases cfgGood fundFailEnv emptyLedger).led.txs = _
    exact hrun.2


/-- C6 (amended): before every on-chain submission (fund transfer, swap,
token transfer, ETH transfer, including the cleanup pass) a transaction
record is persisted first — every submit event in any run of
executeOperation is preceded by a savedTx of the same type and wallet —
and each phase body updates that record in place to success when the
action succeeds.  On failure, however, only the phase-5 token transfer
marks its record failed; a failed funding transfer, a failed swap, a
failed phase-5 ETH transfer and failed cleanup transfers all leave the
record pending, as the per-step ledger equations below state. -/
theorem tx_lifecycle_amended :
    (∀ (cfg : AppConfig) (env : Env) (s : MState),
        submitsCovered (executeOperation cfg env s).evs = true) ∧
    (∀ (env : Env) (gq : ℚ) (e : WEntry) (rs : RS),
      (fundStep env gq e rs).led.txs =
        (if env.fundOk e.1 then
          rs.led.txs.map (fun r =>
            if r.txid = rs.led.nextTxId then { r with tstatus := .success } else r)
         else rs.led.txs) ++
        [⟨rs.led.nextTxId, .fund_transfer, e.2.1, gq + e.2.2,
          if env.fundOk e.1 then .success else .pending⟩]) ∧
    (∀ (env : Env) (gq : ℚ) (e : WEntry) (rs : RS),
      (swapStep env gq e rs).led.txs =
        (if swapAmount env gq e ≤ 0 then rs.led.txs
         else
          (if env.swapOk e.1 then
            rs.led.txs.map (fun r =>
              if r.txid = rs.led.nextTxId then { r with tstatus := .success } else r)
           else rs.led.txs) ++
          [⟨rs.led.nextTxId, .token_swap, e.2.1, swapAmount env gq e,
            if env.swapOk e.1 then .success else .pending⟩])) ∧
    (∀ (env : Env) (mkq : ℚ) (e : WEntry) (rs : RS),
      (transferStep env mkq e rs).led.txs =
        (let tokTxs :=
          if 1 / 1000000 < env.tokenBal e.1 - mkq then
            rs.led.txs.map (fun r =>
              if r.txid = rs.led.nextTxId then
                { r with tstatus := if env.tokOk e.1 then .success else .failed }
              else r) ++
            [⟨rs.led.nextTxId, .token_transfer, e.2.1, env.tokenBal e.1 - mkq,
              if env.tokOk e.1 then .success else .failed⟩]
          else rs.led.txs
         let t1 := rs.led.nextTxId + (if 1 / 1000000 < env.tokenBal e.1 - mkq then 1 else 0)
         if 10000000000000 < env.ethBalWei e.1 ∧
             0 < env.ethBalWei e.1 - 21000 * effGasPrice env.gasPriceWei * 2 then
           (if env.ethOk e.1 then
             tokTxs.map (fun r =>
               if r.txid = t1 then { r with tstatus := .success } else r)
            else tokTxs) ++
           [⟨t1, .eth_transfer, e.2.1,
             (env.ethBalWei e.1 - 21000 * effGasPrice env.gasPriceWei * 2) / weiPerEth,
             if env.ethOk e.1 then .success else .pending⟩]
         else tokTxs)) ∧
    (∀ (ce : CleanupEnv) (mkq : ℚ) (idx : ℕ) (w : WalletRec) (rs : RS),
      (cleanupStep ce mkq idx w rs).led.txs =
        (if w.status = .completed then rs.led.txs
         else
          let tokTxs :=
            if 0 < ce.tokBal idx ∧ 0 < ce.tokBal idx - mkq then
              (if ce.tokOk idx then
                rs.led.txs.map (fun r =>
                  if r.txid = rs.led.nextTxId then { r with tstatus := .success } else r)
               else rs.led.txs) ++
              [⟨rs.led.nextTxId, .token_transfer, w.wid, ce.tokBal idx - mkq,
                if ce.tokOk idx then .success else .pending⟩]
            else rs.led.txs
          let t1 := rs.led.nextTxId +
            (if 0 < ce.tokBal idx ∧ 0 < ce.tokBal idx - mkq then 1 else 0)
          if 1 / 10000 < ce.ethBal idx - 1 / 10000 then
            (if ce.ethOk idx then
              tokTxs.map (fun r =>
                if r.txid = t1 then { r with tstatus := .success } else r)
             else tokTxs) ++
            [⟨t1, .eth_transfer, w.wid, ce.ethBal idx - 1 / 10000,
              if ce.ethOk idx then .success else .pending⟩]
          else tokTxs)) :=
  ⟨executeOperation_covered, fundStep_txs, swapStep_txs, transferStep_txs, cleanupStep_txs⟩

/-- C9 witness: a concrete already-completed wallet with zero balances,
instantiating the second-call no-op theorem. -/
theorem transferBack_second_call_noop_witness :
    ((∀ r ∈ oneCompletedLedger.wallets, r.wid = 5 → r.status = .completed) ∧
      oneCompletedLedger.wallets.find? (fun r => r.wid = 5) =
        some ⟨5, .completed⟩ ∧
      drainedTBEnv.loadOk = true ∧
      parseFloatJs cfgGood.minKeptTokens = .val 0 ∧
      drainedTBEnv.tokBal = 0 ∧ drainedTBEnv.ethBalWei = 0) ∧
    ((transferBackFromWallet 5 (some cfgGood) none drainedTBEnv
        (transferBackFromWallet 5 (some cfgGood) none drainedTBEnv
          oneCompletedLedger).led).led =
      (transferBackFromWallet 5 (some cfgGood) none drainedTBEnv
        oneCompletedLedger).led ∧
     (transferBackFromWallet 5 (some cfgGood) none drainedTBEnv
        (transferBackFromWallet 5 (some cfgGood) none drainedTBEnv
          oneCompletedLedger).led).led.txs = oneCompletedLedger.txs ∧
     (∀ id t w2, Ev.savedTx id t w2 ∉
        (transferBackFromWallet 5 (some cfgGood) none drainedTBEnv
          (transferBackFromWallet 5 (some cfgGood) none drainedTBEnv
            oneCompletedLedger).led).evs) ∧
     (∀ t w2, Ev.submit t w2 ∉
        (transferBackFromWallet 5 (some cfgGood) none drainedTBEnv
          (transferBackFromWallet 5 (some cfgGood) none drainedTBEnv
            oneCompletedLedger).led).evs) ∧
     (transferBackFromWallet 5 (some cfgGood) none drainedTBEnv
        (transferBackFromWallet 5 (some cfgGood) none drainedTBEnv
          oneCompletedLedger).led).threw = false) := by
  have hcomp : ∀ r ∈ oneCompletedLedger.wallets, r.wid = 5 → r.status = .completed := by
    intro r hmem hwid
    simp [oneCompletedLedger] at hmem
    rw [hmem]
  refine ⟨⟨hcomp, rfl, rfl, parse_zero, rfl, rfl⟩, ?_⟩
  exact transferBack_second_call_noop 5 cfgGood none drainedTBEnv oneCompletedLedger 0
    ⟨5, .completed⟩ hcomp rfl rfl parse_zero (le_refl 0) rfl rfl

end MTB
